import Mathlib

/-!
# Verification of the hybrid local file search system

A shallow embedding of the core of the hybrid (BM25 + vector) local file
search and monitoring system, together with proofs about its behaviour.

The embedding follows the Python sources:
* `src/rerankers/rrf_reranker.py`   (RRF fusion)
* `src/rerankers/base_reranker.py`  (validation, score-threshold filter)
* `src/retrievers/bm25_retriever.py` (lexical retriever state machine)
* `src/retrievers/vector_retriever.py` (vector search pipeline, chunker)
* `src/core/base_system.py`          (text extraction size gate)
* `src/core/hybrid_config.py`        (configuration validation)

Scores are modelled as rationals, documents are identified by their path
strings, and external collaborators (the MeCab tokenizer, the bm25s scoring
backend, the embedding model and the ANN store) enter as oracle parameters:
the code only consumes their outputs.  Python dictionaries are modelled as
insertion-ordered association lists, which is exactly the observable
behaviour of `dict` iteration.  Python's `list.sort(key=..., reverse=True)`
is a stable descending sort; it is modelled by a stable insertion sort on
the score, which produces the same list for every input.
-/

namespace HybridSearch

/-- `SearchResult` from `core/base_system.py`: doc id, text preview, score
and the originating search type (metadata is carried but irrelevant to the
claims, so it is omitted). -/
structure SearchResult where
  doc_id : String
  text : String
  score : ℚ
  search_type : String
deriving Repr, DecidableEq

/-- `RetrievalResult` from `rerankers/base_reranker.py`: one retriever's
ranked list (position 0 of `results` is rank 1) with its weight. -/
structure RetrievalResult where
  retriever_name : String
  results : List SearchResult
  weight : ℚ
deriving Repr, DecidableEq

/-- The parameter dictionary of `RRFReranker.__init__`. -/
structure RRFParams where
  k : ℚ
  normalize_weights : Bool
  score_threshold : ℚ
  max_results : ℕ
deriving Repr, DecidableEq

/-- The defaults set in `RRFReranker.__init__`: `k = config.RRF_K = 60`,
`normalize_weights = True`, `score_threshold = 0.001`, `max_results = 1000`. -/
def defaultRRFParams : RRFParams :=
  { k := 60, normalize_weights := true, score_threshold := 1/1000, max_results := 1000 }

/-- Insertion-ordered accumulation `rrf_scores[doc_id] += v` on a
`defaultdict(float)`: an existing key keeps its position, a new key is
appended at the end. -/
def assocAdd : List (String × ℚ) → String → ℚ → List (String × ℚ)
  | [], key, v => [(key, v)]
  | (k', v') :: rest, key, v =>
      if k' = key then (k', v' + v) :: rest else (k', v') :: assocAdd rest key v

/-- Value of a key in an insertion-ordered score dictionary
(`rrf_scores[d]`, defaulting to `0` as for `defaultdict(float)`). -/
def scoreOf : List (String × ℚ) → String → ℚ
  | [], _ => 0
  | (k, v) :: rest, d => if d = k then v else scoreOf rest d

/-- The inner loop of `RRFReranker._calculate_rrf_scores`:
`for rank, result in enumerate(results, 1): rrf_scores[doc_id] += weight / (k + rank)`. -/
def addListScoresAux (kq w : ℚ) : List SearchResult → ℕ → List (String × ℚ) → List (String × ℚ)
  | [], _, acc => acc
  | r :: rs, rank, acc =>
      addListScoresAux kq w rs (rank + 1) (assocAdd acc r.doc_id (w / (kq + (rank : ℚ))))

/-- `RRFReranker._calculate_rrf_scores`: optionally normalize the weights to
sum 1 (only when the flag is set, the weight list is non-empty and the total
is positive), truncate each ranked list to `max_results`, and accumulate
`weight / (k + rank)` per document, ranks starting at 1. -/
def calculateRRFScores (p : RRFParams) (rrs : List RetrievalResult) : List (String × ℚ) :=
  let ws := rrs.map (·.weight)
  let ws := if p.normalize_weights && !ws.isEmpty then
      (if 0 < ws.sum then ws.map (· / ws.sum) else ws)
    else ws
  (rrs.zip ws).foldl
    (fun acc pr => addListScoresAux p.k pr.2 (pr.1.results.take p.max_results) 1 acc) []

/-- The `doc_results` dictionary of `RRFReranker._create_final_results`:
first occurrence of each doc id across the input lists wins. -/
def firstOccAux : List SearchResult → List (String × SearchResult) → List (String × SearchResult)
  | [], acc => acc
  | r :: rs, acc =>
      firstOccAux rs (if r.doc_id ∈ acc.map Prod.fst then acc else acc ++ [(r.doc_id, r)])

/-- All `doc_results` collected over the retrieval results in order. -/
def firstOcc (rrs : List RetrievalResult) : List (String × SearchResult) :=
  rrs.foldl (fun acc rr => firstOccAux rr.results acc) []

/-- Lookup in a `{doc_id: SearchResult}` dictionary. -/
def srLookup : List (String × SearchResult) → String → Option SearchResult
  | [], _ => none
  | (k, v) :: rest, d => if d = k then some v else srLookup rest d

/-- Stable insertion step for Python's `list.sort(key=lambda x: x.score,
reverse=True)`: a new element is placed before the first strictly smaller
score, hence after all earlier elements of equal score. -/
def insertByScoreDesc (x : SearchResult) : List SearchResult → List SearchResult
  | [] => [x]
  | y :: ys => if y.score < x.score then x :: y :: ys else y :: insertByScoreDesc x ys

/-- Python's stable descending sort by `score` (`reverse=True`). -/
def sortByScoreDesc (l : List SearchResult) : List SearchResult :=
  l.foldl (fun acc x => insertByScoreDesc x acc) []

/-- The unsorted result list built by `RRFReranker._create_final_results`
before its final `sort`: iterate `rrf_scores` in insertion order and attach
the first-occurrence `SearchResult` data with the fused score. -/
def finalResultsUnsorted (rrfScores : List (String × ℚ)) (rrs : List RetrievalResult) :
    List SearchResult :=
  rrfScores.filterMap (fun pr =>
    match srLookup (firstOcc rrs) pr.1 with
    | some orig => some { doc_id := orig.doc_id, text := orig.text, score := pr.2,
                          search_type := "hybrid" }
    | none => none)

/-- `RRFReranker._create_final_results`: build then sort descending by the
RRF score (stable, no further tie-break). -/
def createFinalResults (rrfScores : List (String × ℚ)) (rrs : List RetrievalResult) :
    List SearchResult :=
  sortByScoreDesc (finalResultsUnsorted rrfScores rrs)

/-- `BaseReranker.validate_retrieval_results`: the list must be non-empty,
each entry must have a non-empty retriever name and a non-negative weight
(the `isinstance` checks hold by typing). -/
def validateRetrievalResults (rrs : List RetrievalResult) : Bool :=
  !rrs.isEmpty && rrs.all (fun rr => rr.retriever_name ≠ "" && 0 ≤ rr.weight)

/-- Python character slicing `s[:n]` (Python slices strings by code
points, exactly `List.take` on the character list). -/
def pyTake (s : String) (n : ℕ) : String :=
  String.mk (s.data.take n)

/-- `RRFReranker.rerank`: validate, compute RRF scores, build and sort the
final results, drop scores below `score_threshold`
(`filter_by_score_threshold` keeps `score >= threshold`), return the first
`k`. -/
def rerank (p : RRFParams) (rrs : List RetrievalResult) (k : ℕ) : List SearchResult :=
  if !validateRetrievalResults rrs then []
  else ((createFinalResults (calculateRRFScores p rrs) rrs).filter
      (fun r => p.score_threshold ≤ r.score)).take k

/-! ## Vector retriever (`src/retrievers/vector_retriever.py`) -/

/-- One row of the ANN search response consumed by `VectorRetriever.search`:
the stored file path (used for grouping and as doc id), the chunk text, and
the raw `_distance` reported by the store. -/
structure VSearchRow where
  file_path : String
  text : String
  distance : ℚ
deriving Repr, DecidableEq

/-- `VectorRetriever._convert_distance_to_similarity`: metric-specific
conversion of a raw distance to a similarity, with the `1 / (1 + d)`
fallback for unknown metric strings. -/
def convertDistanceToSimilarity (metric : String) (d : ℚ) : ℚ :=
  if metric = "cosine" then max 0 (1 - d)
  else if metric = "l2" then 1 / (1 + d)
  else if metric = "dot" then (d + 1) / 2
  else 1 / (1 + d)

/-- One assignment `processed_files[file_path] = (similarity, text)` under
the guard `file_path not in processed_files or similarity > processed[fp][0]`:
an existing key keeps its dictionary position and is replaced only on a
strictly larger similarity. -/
def assocImprove : List (String × ℚ × String) → String → ℚ → String → List (String × ℚ × String)
  | [], key, s, t => [(key, s, t)]
  | (k', s', t') :: rest, key, s, t =>
      if k' = key then (if s' < s then (k', s, t) else (k', s', t')) :: rest
      else (k', s', t') :: assocImprove rest key s t

/-- The row loop of `VectorRetriever.search`: convert each distance, skip
rows whose similarity falls below the threshold, and keep the per-file
maximum. -/
def processVRows (metric : String) (th : ℚ) : List VSearchRow → List (String × ℚ × String) →
    List (String × ℚ × String)
  | [], acc => acc
  | r :: rs, acc =>
      let sim := convertDistanceToSimilarity metric r.distance
      if sim < th then processVRows metric th rs acc
      else processVRows metric th rs (assocImprove acc r.file_path sim r.text)

/-- The rows of the ANN response that survive the similarity threshold. -/
def survivingRows (metric : String) (th : ℚ) (rows : List VSearchRow) : List VSearchRow :=
  rows.filter (fun r => !(convertDistanceToSimilarity metric r.distance < th))

/-- Lookup in the `processed_files` dictionary. -/
def vLookup : List (String × ℚ × String) → String → Option (ℚ × String)
  | [], _ => none
  | (k, v) :: rest, d => if d = k then some v else vLookup rest d

/-- The `SearchResult` built from one `processed_files` entry: the text is
truncated to a 200-character preview (`text[:200]`). -/
def mkVectorResult (e : String × ℚ × String) : SearchResult :=
  { doc_id := e.1, text := pyTake e.2.2 200, score := e.2.1, search_type := "vector" }

/-- `VectorRetriever.search` from the point where the ANN store has
returned its rows (query encoding and the `limit(2k)` request belong to the
external store): empty responses short-circuit, surviving rows are grouped
to the per-file maximum, results are sorted descending by score (stable)
and truncated to `k`. -/
def vectorSearch (metric : String) (th : ℚ) (rows : List VSearchRow) (k : ℕ) :
    List SearchResult :=
  if rows.isEmpty then []
  else (sortByScoreDesc ((processVRows metric th rows []).map mkVectorResult)).take k

/-- Rows of the ANN table `{doc-id, chunk ordinal, text}` (the vector column
is irrelevant to removal). -/
structure VRow where
  doc_id : String
  chunk_id : ℕ
  text : String
deriving Repr, DecidableEq

/-- The state of `VectorRetriever` relevant to removal: the open table
(`none` when not initialized) and the maintained document counter. -/
structure VectorState where
  table : Option (List VRow)
  document_count : ℕ
deriving Repr, DecidableEq

/-- `VectorRetriever.remove_document`: delete every row whose `doc_id`
matches, and report whether the row count dropped. -/
def vecRemoveDocument (s : VectorState) (d : String) : VectorState × Bool :=
  match s.table with
  | none => (s, false)
  | some rows =>
      let rows' := rows.filter (fun r => !(r.doc_id = d : Bool))
      if rows'.length < rows.length then
        ({ table := some rows', document_count := s.document_count - 1 }, true)
      else (s, false)

/-! ## Chunker (`VectorRetriever._split_text_into_chunks`) -/

/-- Python `str.strip()` on a character list: drop whitespace from both
ends. -/
def pyStrip (s : List Char) : List Char :=
  ((s.dropWhile Char.isWhitespace).reverse.dropWhile Char.isWhitespace).reverse

/-- Python `range(0, n, step)` for `step > 0`: the multiples of `step`
below `n`. -/
def pyRangePositions (n step : ℕ) : List ℕ :=
  (List.range ((n + step - 1) / step)).map (· * step)

/-- The window `text[i : i + chunkSize]`. -/
def windowAt (text : List Char) (chunkSize i : ℕ) : List Char :=
  (text.drop i).take chunkSize

/-- A chunk record as built by `_split_text_into_chunks` (the `file_path`
field is constant and omitted): stripped text, `start_pos = i`,
`end_pos = i + len(chunk_text)`. -/
structure ChunkInfo where
  text : List Char
  start_pos : ℕ
  end_pos : ℕ
deriving Repr, DecidableEq

/-- `VectorRetriever._split_text_into_chunks`: return no chunks for a
whitespace-only text, otherwise slide a window of `chunkSize` characters
stepping `chunkSize - overlap` from position 0 and emit the stripped window
whenever its stripped length reaches `minChunk`. -/
def splitTextIntoChunks (chunkSize overlap minChunk : ℕ) (text : List Char) : List ChunkInfo :=
  if pyStrip text = [] then []
  else (pyRangePositions text.length (chunkSize - overlap)).filterMap (fun i =>
    let chunk := windowAt text chunkSize i
    if (pyStrip chunk).length < minChunk then none
    else some { text := pyStrip chunk, start_pos := i, end_pos := i + chunk.length })

/-- Modelled from the spec: the chunker as §4.2 words it — every window of
the sliding grid is emitted (stripped) exactly when its trimmed length is at
least `minChunk`, with no special case for whitespace-only inputs. -/
def splitTextIntoChunksSpec (chunkSize overlap minChunk : ℕ) (text : List Char) :
    List ChunkInfo :=
  (pyRangePositions text.length (chunkSize - overlap)).filterMap (fun i =>
    let chunk := windowAt text chunkSize i
    if (pyStrip chunk).length < minChunk then none
    else some { text := pyStrip chunk, start_pos := i, end_pos := i + chunk.length })

/-! ## Lexical retriever (`src/retrievers/bm25_retriever.py`) -/

/-- Update-or-append on an insertion-ordered dictionary
(`self.corpus_cache[path] = tokens`). -/
def dictInsert {α : Type} : List (String × α) → String → α → List (String × α)
  | [], k, v => [(k, v)]
  | (k', v') :: rest, k, v =>
      if k' = k then (k', v) :: rest else (k', v') :: dictInsert rest k v

/-- Conditional delete (`if path in self.corpus_cache: del ...`): remove
the first matching key, keep the rest. -/
def dictErase {α : Type} : List (String × α) → String → List (String × α)
  | [], _ => []
  | (k', v') :: rest, k =>
      if k' = k then rest else (k', v') :: dictErase rest k

/-- Python `list.index(x)`: index of the first occurrence. -/
def pyIndex (l : List String) (x : String) : ℕ :=
  l.findIdx (fun p => p = x)

/-- The state of `BM25Retriever`: tokenized corpus, path list, the built
BM25 index (modelled by the corpus snapshot it was built over, since the
bm25s backend is a pure function of that snapshot and the fixed `k1`/`b`),
the corpus cache dictionary and the document counter. -/
structure BM25State where
  corpus : List (List String)
  paths : List String
  index : Option (List (List String))
  corpus_cache : List (String × List String)
  document_count : ℕ
deriving Repr, DecidableEq

/-- A freshly constructed retriever: everything empty, no index. -/
def emptyBM25 : BM25State :=
  { corpus := [], paths := [], index := none, corpus_cache := [], document_count := 0 }

/-- `BM25Retriever._rebuild_index`: with an empty corpus nothing happens
and `False` is returned; otherwise a fresh BM25 is built over the current
corpus (the `ENABLE_AUTOSAVE` branch then writes the artifact to disk,
a filesystem effect modelled separately by `saveIndexOps`). -/
def rebuildIndex (s : BM25State) : BM25State × Bool :=
  if s.corpus = [] then (s, false)
  else ({ s with index := some s.corpus }, true)

/-- `BM25Retriever.add_document`, with the tokenizer (MeCab plus the
empty-token filter) as an oracle `tok`: failed tokenization returns
`False`; otherwise the cache entry is written, the corpus entry for the
path is replaced in place (or both lists are extended), and the index is
rebuilt before returning `True`. -/
def addDocument (tok : String → List String) (s : BM25State) (path : String) (text : String) :
    BM25State × Bool :=
  let tokens := tok text
  if tokens = [] then (s, false)
  else
    let cache := dictInsert s.corpus_cache path tokens
    if path ∈ s.paths then
      ((rebuildIndex { s with corpus_cache := cache,
                              corpus := s.corpus.set (pyIndex s.paths path) tokens }).1, true)
    else
      ((rebuildIndex { s with corpus_cache := cache,
                              paths := s.paths ++ [path],
                              corpus := s.corpus ++ [tokens],
                              document_count := s.document_count + 1 }).1, true)

/-- `BM25Retriever.remove_document`: drop the cache entry if present; if
the doc id is among the paths, delete path and corpus entry at its first
index, decrement the counter (floored at 0), rebuild, and return `True`;
otherwise return `False`. -/
def removeDocument (s : BM25State) (d : String) : BM25State × Bool :=
  let cache := dictErase s.corpus_cache d
  if d ∈ s.paths then
    ((rebuildIndex { s with corpus_cache := cache,
                            paths := s.paths.eraseIdx (pyIndex s.paths d),
                            corpus := s.corpus.eraseIdx (pyIndex s.paths d),
                            document_count := s.document_count - 1 }).1, true)
  else ({ s with corpus_cache := cache }, false)

/-- `BM25Retriever._rebuild_corpus_from_cache`: rebuild paths and corpus
together from the cache, keeping only entries whose file still exists
(`fileExists` oracle), and reset the counter to the number of kept paths. -/
def rebuildCorpusFromCache (fileExists : String → Bool) (s : BM25State) : BM25State :=
  let kept := s.corpus_cache.filter (fun pr => fileExists pr.1)
  { s with paths := kept.map Prod.fst, corpus := kept.map Prod.snd,
           document_count := (kept.map Prod.fst).length }

/-- `config.BM25_MIN_SCORE_THRESHOLD = 0.1`. -/
def BM25_MIN_SCORE_THRESHOLD : ℚ := 1/10

/-- The result construction loop of `BM25Retriever.search`
(`for i, score in enumerate(scores): if score >= threshold: ... paths[i] ...
corpus[i] ...`): `none` models the `IndexError` raised when a score index
has no corresponding path or corpus entry (caught by the surrounding
`except`, which turns it into an empty result list). -/
def buildLexResultsAux (th : ℚ) : List ℚ → ℕ → List String → List (List String) →
    Option (List SearchResult)
  | [], _, _, _ => some []
  | sc :: rest, i, paths, corpus =>
      if sc < th then buildLexResultsAux th rest (i + 1) paths corpus
      else
        match paths.get? i, corpus.get? i with
        | some p, some c =>
            (buildLexResultsAux th rest (i + 1) paths corpus).map
              (fun tail => { doc_id := p, text := pyTake (String.intercalate " " c) 200,
                             score := sc, search_type := "bm25" } :: tail)
        | _, _ => none

/-- Results of the lexical score scan starting at index 0. -/
def buildLexResults (th : ℚ) (scores : List ℚ) (paths : List String)
    (corpus : List (List String)) : Option (List SearchResult) :=
  buildLexResultsAux th scores 0 paths corpus

/-- `BaseRetriever.validate_query` (`bool(query and query.strip())`): the
query must be non-empty after stripping whitespace. -/
def validQuery (q : String) : Bool := !(pyStrip q.data).isEmpty

/-- `BM25Retriever.search`, with the bm25s scoring backend as an oracle
`getScores` applied to the corpus snapshot the index was built from: the
index is used as-is (search never rebuilds), sub-threshold scores are
discarded, results are sorted descending by score (stable) and truncated
to `k`; an index error during construction yields `[]`. -/
def bm25Search (getScores : List (List String) → List String → List ℚ)
    (tok : String → List String) (s : BM25State) (query : String) (k : ℕ) :
    List SearchResult :=
  if !validQuery query then []
  else
    match s.index with
    | none => []
    | some built =>
        if s.corpus = [] then []
        else
          let qTokens := tok query
          if qTokens = [] then []
          else
            match buildLexResults BM25_MIN_SCORE_THRESHOLD (getScores built qTokens)
                s.paths s.corpus with
            | none => []
            | some rs => (sortByScoreDesc rs).take k

/-! ## Persistence of the lexical index (`BM25Retriever.save_index`) -/

/-- The pickled payload of `save_index`: `{'index': ..., 'corpus': ...,
'paths': [str(p) for p in self.paths], 'document_count': ...}`. -/
structure SaveData where
  index : List (List String)
  corpus : List (List String)
  paths : List String
  document_count : ℕ
deriving Repr, DecidableEq

/-- On-disk content of one file: a completely written payload, or a torn
file left behind by an interrupted write. -/
inductive FileContent where
  | full (d : SaveData)
  | torn
deriving Repr, DecidableEq

/-- The filesystem operations a save routine can perform. -/
inductive FileOp where
  | write (path : String) (data : SaveData)
  | rename (src dst : String)
deriving Repr, DecidableEq

/-- Whether an operation is a rename. -/
def FileOp.isRename : FileOp → Bool
  | .rename _ _ => true
  | .write _ _ => false

/-- The file operations performed by `BM25Retriever.save_index` on the
target path: nothing when no index exists (it returns `False`), otherwise a
single direct `open(save_path, 'wb'); pickle.dump(...)`. -/
def saveIndexOps (s : BM25State) (savePath : String) : List FileOp :=
  match s.index with
  | none => []
  | some idx =>
      [FileOp.write savePath
        { index := idx, corpus := s.corpus, paths := s.paths,
          document_count := s.document_count }]

/-- Effect of one completed file operation on the filesystem. -/
def applyOp (fs : String → Option FileContent) : FileOp → (String → Option FileContent)
  | .write p d => fun q => if q = p then some (.full d) else fs q
  | .rename src dst => fun q => if q = dst then fs src else if q = src then none else fs q

/-- Effect of a completed run of operations. -/
def applyOps (fs : String → Option FileContent) (ops : List FileOp) :
    String → Option FileContent :=
  ops.foldl applyOp fs

/-- Effect of a run interrupted during operation `j` (0-based): the first
`j` operations complete; an interrupted `write` leaves a torn file at its
target, because `open(path, 'wb')` truncates before the payload is
written; an interrupted `rename` is atomic, so it simply does not happen. -/
def applyOpsInterrupted (fs : String → Option FileContent) (ops : List FileOp) (j : ℕ) :
    String → Option FileContent :=
  let fs' := applyOps fs (ops.take j)
  match ops.get? j with
  | some (.write p _) => fun q => if q = p then some .torn else fs' q
  | _ => fs'

/-! ## Text extraction (`src/core/base_system.py`) -/

/-- `config.MAX_FILE_SIZE = 10 * 1024 * 1024`. -/
def MAX_FILE_SIZE : ℕ := 10 * 1024 * 1024

/-- `config.SUPPORTED_EXTENSIONS = {".txt", ".md", ".pdf"}`. -/
def SUPPORTED_EXTENSIONS : List String := [".txt", ".md", ".pdf"]

/-- A file as seen by the extractor: whether the path is a regular file,
its on-disk size, its suffix as computed by `path.suffix.lower()` (both
call sites lowercase the raw suffix before comparing), what
`read_text(errors='ignore')` would return, and what the PDF extractor
delivers within the timeout (empty on timeout or failure). -/
structure FileInfo where
  is_file : Bool
  size : ℕ
  suffix : String
  read_text : String
  pdf_text : String
deriving Repr, DecidableEq

/-- `HybridBaseSystem.extract_text`: reject files larger than
`MAX_FILE_SIZE`, delegate `.pdf` to the timed extractor, read `.txt`/`.md`
directly, and return empty for anything else. -/
def extractText (f : FileInfo) : String :=
  if MAX_FILE_SIZE < f.size then ""
  else if f.suffix = ".pdf" then f.pdf_text
  else if f.suffix = ".txt" ∨ f.suffix = ".md" then f.read_text
  else ""

/-- `HybridBaseSystem.is_supported_file`: regular file, supported suffix,
and size at most `MAX_FILE_SIZE` (inclusive). -/
def isSupportedFile (f : FileInfo) : Bool :=
  f.is_file && SUPPORTED_EXTENSIONS.contains f.suffix && f.size ≤ MAX_FILE_SIZE

/-! ## Configuration validation (`src/core/hybrid_config.py`) -/

/-- The configuration knobs inspected by `validate_config`. -/
structure HybridConfig where
  watch_directory_exists : Bool
  bm25_k1 : ℚ
  bm25_b : ℚ
  chunk_size : ℤ
  chunk_overlap : ℤ
  min_similarity_threshold : ℚ
  rrf_k : ℚ
deriving Repr, DecidableEq

/-- Which check of `validate_config` rejected the configuration. -/
inductive ConfigFailure where
  | watchDirMissing
  | badK1
  | badB
  | chunkOverlapTooLarge
  | badSimilarity
  | badRRFK
deriving Repr, DecidableEq

/-- `validate_config` with the identity of the first failing check made
explicit (the Python function prints a check-specific message and returns
`False` at the first failure). -/
def validateConfigResult (c : HybridConfig) : Option ConfigFailure :=
  if !c.watch_directory_exists then some .watchDirMissing
  else if ¬(0 < c.bm25_k1 ∧ c.bm25_k1 ≤ 10) then some .badK1
  else if ¬(0 ≤ c.bm25_b ∧ c.bm25_b ≤ 1) then some .badB
  else if c.chunk_size ≤ c.chunk_overlap then some .chunkOverlapTooLarge
  else if ¬(0 ≤ c.min_similarity_threshold ∧ c.min_similarity_threshold ≤ 1) then
    some .badSimilarity
  else if c.rrf_k ≤ 0 then some .badRRFK
  else none

/-- `validate_config`: `True` exactly when every check passes. -/
def validateConfig (c : HybridConfig) : Bool :=
  (validateConfigResult c).isNone

/-! ## Specification-side definitions and proof-support functions -/

/-- The 1-based rank of a document in a ranked list (`rank_i(d)` of the
spec), `none` when the document does not occur. -/
def rankIn : List SearchResult → String → Option ℕ
  | [], _ => none
  | r :: rs, d => if r.doc_id = d then some 1 else (rankIn rs d).map (· + 1)

/-- Modelled from the spec: the fused RRF score
`S(d) = Σ_i w_i / (k_rrf + rank_i(d))` with ranks starting at 1 and the
weights normalized by the total `W`; a retriever that does not rank `d`
contributes nothing. -/
def specRRFScore (kq W : ℚ) (rrs : List RetrievalResult) (d : String) : ℚ :=
  (rrs.map (fun rr =>
    match rankIn rr.results d with
    | some rank => (rr.weight / W) / (kq + (rank : ℚ))
    | none => 0)).sum

/-- The total contribution a single ranked list adds for document `d` when
its rank counter starts at `rank` (proof-support mirror of the inner loop
of `_calculate_rrf_scores`). -/
def rrfContrib (kq w : ℚ) : List SearchResult → ℕ → String → ℚ
  | [], _, _ => 0
  | r :: rs, rank, d =>
      (if d = r.doc_id then w / (kq + (rank : ℚ)) else 0) + rrfContrib kq w rs (rank + 1) d

/-- The best (strictly improving) similarity/text pair a run of surviving
rows produces for one key, starting from an optional current entry
(proof-support mirror of the `processed_files` update). -/
def runBest (metric : String) (key : String) : List VSearchRow → Option (ℚ × String) →
    Option (ℚ × String)
  | [], cur => cur
  | r :: rs, cur =>
      if r.file_path = key then
        runBest metric key rs
          (match cur with
           | none => some (convertDistanceToSimilarity metric r.distance, r.text)
           | some (s', t') =>
               if s' < convertDistanceToSimilarity metric r.distance
               then some (convertDistanceToSimilarity metric r.distance, r.text)
               else some (s', t'))
      else runBest metric key rs cur

/-- A trivial tokenizer used to instantiate the tokenizer oracle on
concrete inputs: every text is one token. -/
def tokSingleton (s : String) : List String := [s]

/-- The RRF input of the spec's worked example: one retriever returns
`[a, b, c]`, the other `[c, a, b]`, with equal weights. -/
def rrfExampleInput : List RetrievalResult :=
  [{ retriever_name := "bm25",
     results := [⟨"a", "ta", 3, "bm25"⟩, ⟨"b", "tb", 2, "bm25"⟩, ⟨"c", "tc", 1, "bm25"⟩],
     weight := 1 },
   { retriever_name := "vector",
     results := [⟨"c", "tc2", 9/10, "vector"⟩, ⟨"a", "ta2", 8/10, "vector"⟩,
                 ⟨"b", "tb2", 7/10, "vector"⟩],
     weight := 1 }]

/-- An RRF input producing a fused-score tie between documents `"b"` and
`"a"`: each document is ranked first by exactly one retriever, with equal
weights. -/
def rrfTieInput : List RetrievalResult :=
  [{ retriever_name := "bm25", results := [⟨"b", "tb", 5, "bm25"⟩], weight := 1 },
   { retriever_name := "vector", results := [⟨"a", "ta", 7/10, "vector"⟩], weight := 1 }]

/-- A lexical retriever state with two documents whose paths are in
descending order, used to exhibit the tie behaviour of the lexical sort. -/
def tieLexState : BM25State :=
  { corpus := [["tok"], ["tok"]], paths := ["b", "a"],
    index := some [["tok"], ["tok"]],
    corpus_cache := [("b", ["tok"]), ("a", ["tok"])], document_count := 2 }

/-- A scoring oracle that scores every document of a two-document corpus
with 1. -/
def tieGetScores : List (List String) → List String → List ℚ :=
  fun _ _ => [1, 1]

/-- A lexical retriever state whose corpus is non-empty but which has no
built index (the situation the spec's lazy-rebuild story would call
"stale"). -/
def staleBM25 : BM25State :=
  { corpus := [["hello"]], paths := ["/a.txt"], index := none,
    corpus_cache := [("/a.txt", ["hello"])], document_count := 1 }

/-- A one-document retriever state with a built index, used for the save
counterexample. -/
def savedBM25 : BM25State :=
  { corpus := [["tok"]], paths := ["/x.txt"], index := some [["tok"]],
    corpus_cache := [("/x.txt", ["tok"])], document_count := 1 }

/-- A previously persisted artifact. -/
def oldSaveData : SaveData :=
  { index := [["old"]], corpus := [["old"]], paths := ["/old.txt"], document_count := 1 }

/-- A filesystem holding the previously persisted artifact at the default
index path. -/
def fsWithOldIndex : String → Option FileContent :=
  fun q => if q = "index.pkl" then some (.full oldSaveData) else none

/-! ## Properties of the stable descending sort -/

theorem insertByScoreDesc_perm (x : SearchResult) (l : List SearchResult) :
    (insertByScoreDesc x l).Perm (x :: l) := by
  induction l with
  | nil => simp [insertByScoreDesc]
  | cons y ys ih =>
      simp only [insertByScoreDesc]
      split
      · exact List.Perm.refl _
      · exact ((ih.cons y).trans (List.Perm.swap x y ys))

theorem insertByScoreDesc_pairwise (x : SearchResult) (l : List SearchResult)
    (h : l.Pairwise (fun a b => b.score ≤ a.score)) :
    (insertByScoreDesc x l).Pairwise (fun a b => b.score ≤ a.score) := by
  induction l with
  | nil => simp [insertByScoreDesc]
  | cons y ys ih =>
      rw [List.pairwise_cons] at h
      obtain ⟨hy, hys⟩ := h
      simp only [insertByScoreDesc]
      split_ifs with hlt
      · refine List.Pairwise.cons ?_ (List.Pairwise.cons hy hys)
        intro b hb
        rcases List.mem_cons.mp hb with hb | hb
        · subst hb; exact le_of_lt hlt
        · exact le_trans (hy b hb) (le_of_lt hlt)
      · refine List.Pairwise.cons ?_ (ih hys)
        intro b hb
        rcases List.mem_cons.mp ((insertByScoreDesc_perm x ys).mem_iff.mp hb) with hb' | hb'
        · subst hb'; exact not_lt.mp hlt
        · exact hy b hb'

theorem sortFold_pairwise (l acc : List SearchResult)
    (hacc : acc.Pairwise (fun a b => b.score ≤ a.score)) :
    (l.foldl (fun acc x => insertByScoreDesc x acc) acc).Pairwise
      (fun a b => b.score ≤ a.score) := by
  induction l generalizing acc with
  | nil => simpa using hacc
  | cons x xs ih => exact ih _ (insertByScoreDesc_pairwise x acc hacc)

theorem sortByScoreDesc_pairwise (l : List SearchResult) :
    (sortByScoreDesc l).Pairwise (fun a b => b.score ≤ a.score) :=
  sortFold_pairwise l [] List.Pairwise.nil

theorem sortFold_perm (l acc : List SearchResult) :
    (l.foldl (fun acc x => insertByScoreDesc x acc) acc).Perm (l ++ acc) := by
  induction l generalizing acc with
  | nil => simp
  | cons x xs ih =>
      have h1 := ih (insertByScoreDesc x acc)
      have h2 : (xs ++ insertByScoreDesc x acc).Perm (xs ++ (x :: acc)) :=
        List.Perm.append_left xs (insertByScoreDesc_perm x acc)
      have h3 : (xs ++ (x :: acc)).Perm (x :: (xs ++ acc)) := List.perm_middle
      exact (h1.trans h2).trans h3

theorem sortByScoreDesc_perm (l : List SearchResult) : (sortByScoreDesc l).Perm l := by
  simpa using sortFold_perm l []

theorem insertByScoreDesc_filter (x : SearchResult) (q : ℚ) (l : List SearchResult)
    (h : l.Pairwise (fun a b => b.score ≤ a.score)) :
    (insertByScoreDesc x l).filter (fun r => r.score = q)
      = l.filter (fun r => r.score = q) ++ (if x.score = q then [x] else []) := by
  induction l with
  | nil =>
      by_cases hq : x.score = q <;>
        simp [insertByScoreDesc, List.filter_cons, hq]
  | cons y ys ih =>
      rw [List.pairwise_cons] at h
      obtain ⟨hy, hys⟩ := h
      by_cases hlt : y.score < x.score
      · simp only [insertByScoreDesc, if_pos hlt]
        by_cases hq : x.score = q
        · have hnil : (y :: ys).filter (fun r => r.score = q) = [] := by
            rw [List.filter_eq_nil_iff]
            intro a ha
            simp only [decide_eq_true_eq]
            intro hEq
            rcases List.mem_cons.mp ha with ha' | ha'
            · subst ha'
              rw [hEq, ← hq] at hlt
              exact lt_irrefl _ hlt
            · have hle := hy a ha'
              rw [hEq, ← hq] at hle
              exact absurd (lt_of_lt_of_le hlt hle) (lt_irrefl _)
          rw [List.filter_cons_of_pos (by simpa using hq), hnil, if_pos hq]
          exact rfl
        · rw [List.filter_cons_of_neg (by simpa using hq), if_neg hq, List.append_nil]
      · simp only [insertByScoreDesc, if_neg hlt]
        rw [List.filter_cons, List.filter_cons, ih hys]
        by_cases hyq : y.score = q <;> simp [hyq, List.cons_append]

theorem sortFold_filter (q : ℚ) (l acc : List SearchResult)
    (hacc : acc.Pairwise (fun a b => b.score ≤ a.score)) :
    (l.foldl (fun acc x => insertByScoreDesc x acc) acc).filter (fun r => r.score = q)
      = acc.filter (fun r => r.score = q) ++ l.filter (fun r => r.score = q) := by
  induction l generalizing acc with
  | nil => simp
  | cons x xs ih =>
      have h1 := ih (insertByScoreDesc x acc) (insertByScoreDesc_pairwise x acc hacc)
      calc (List.foldl (fun acc x => insertByScoreDesc x acc) (insertByScoreDesc x acc)
              xs).filter (fun r => r.score = q)
          = (insertByScoreDesc x acc).filter (fun r => r.score = q)
              ++ xs.filter (fun r => r.score = q) := h1
        _ = (acc.filter (fun r => r.score = q) ++ (if x.score = q then [x] else []))
              ++ xs.filter (fun r => r.score = q) := by
            rw [insertByScoreDesc_filter x q acc hacc]
        _ = acc.filter (fun r => r.score = q)
              ++ ((x :: xs).filter (fun r => r.score = q)) := by
            rw [List.append_assoc, List.filter_cons]
            by_cases hq : x.score = q <;> simp [hq]

/-- The central fact about Python's stable `sort(key=score, reverse=True)`:
elements of any fixed score keep their relative (pre-sort) order. -/
theorem sortByScoreDesc_filter (l : List SearchResult) (q : ℚ) :
    (sortByScoreDesc l).filter (fun r => r.score = q) = l.filter (fun r => r.score = q) := by
  simpa using sortFold_filter q l [] List.Pairwise.nil

theorem pairwise_take_drop {α : Type} {R : α → α → Prop} {l : List α} (h : l.Pairwise R)
    (k : ℕ) {a b : α} (ha : a ∈ l.take k) (hb : b ∈ l.drop k) : R a b := by
  have hl := List.take_append_drop k l
  rw [← hl] at h
  exact (List.pairwise_append.mp h).2.2 a ha b hb

/-! ## C7: the extraction size gate is inclusive at `max_file_size` -/

/-- C7: text extraction accepts a file of size exactly `max_file_size`
(returning its extracted text) and rejects any larger file with the empty
string, and `is_supported_file` uses the same inclusive bound. -/
theorem max_file_size_boundary :
    ∀ f : FileInfo,
      (f.size = MAX_FILE_SIZE →
        (f.suffix = ".txt" ∨ f.suffix = ".md") →
        extractText f = f.read_text)
      ∧ (f.size = MAX_FILE_SIZE → f.suffix = ".pdf" → extractText f = f.pdf_text)
      ∧ (MAX_FILE_SIZE < f.size → extractText f = "")
      ∧ (f.size ≤ MAX_FILE_SIZE →
          isSupportedFile f = (f.is_file && SUPPORTED_EXTENSIONS.contains f.suffix))
      ∧ (MAX_FILE_SIZE < f.size → isSupportedFile f = false) := by
  intro f
  refine ⟨?_, ?_, ?_, ?_, ?_⟩
  · intro hsz hsuf
    have hnot : ¬ MAX_FILE_SIZE < f.size := by omega
    rcases hsuf with hsuf | hsuf <;> simp [extractText, hnot, hsuf]
  · intro hsz hsuf
    have hnot : ¬ MAX_FILE_SIZE < f.size := by omega
    simp [extractText, hnot, hsuf]
  · intro hsz
    simp [extractText, hsz]
  · intro hsz
    unfold isSupportedFile
    rw [decide_eq_true hsz, Bool.and_true]
  · intro hsz
    unfold isSupportedFile
    rw [decide_eq_false (not_le.mpr hsz), Bool.and_false]

theorem max_file_size_boundary_witness :
    extractText { is_file := true, size := MAX_FILE_SIZE, suffix := ".txt",
                  read_text := "hello", pdf_text := "" } = "hello"
    ∧ extractText { is_file := true, size := MAX_FILE_SIZE + 1, suffix := ".txt",
                    read_text := "hello", pdf_text := "" } = ""
    ∧ isSupportedFile { is_file := true, size := MAX_FILE_SIZE + 1, suffix := ".txt",
                        read_text := "hello", pdf_text := "" } = false :=
  ⟨(max_file_size_boundary _).1 rfl (Or.inl rfl),
   (max_file_size_boundary _).2.2.1 (Nat.lt_succ_self _),
   (max_file_size_boundary _).2.2.2.2 (Nat.lt_succ_self _)⟩

/-! ## C9: the chunk-overlap configuration check -/

/-- C9: configuration validation fails on the chunk check exactly when
`chunk_size ≤ chunk_overlap` (once the earlier checks pass); in particular
`chunk_overlap = chunk_size - 1` never trips this check, while
`chunk_overlap = chunk_size` does. -/
theorem config_chunk_overlap_check :
    ∀ c : HybridConfig,
      (validateConfigResult c = some ConfigFailure.chunkOverlapTooLarge ↔
        (c.watch_directory_exists = true ∧ (0 < c.bm25_k1 ∧ c.bm25_k1 ≤ 10)
          ∧ (0 ≤ c.bm25_b ∧ c.bm25_b ≤ 1) ∧ c.chunk_size ≤ c.chunk_overlap))
      ∧ (c.watch_directory_exists = true → (0 < c.bm25_k1 ∧ c.bm25_k1 ≤ 10) →
          (0 ≤ c.bm25_b ∧ c.bm25_b ≤ 1) →
          (0 ≤ c.min_similarity_threshold ∧ c.min_similarity_threshold ≤ 1) →
          0 < c.rrf_k →
          (validateConfig c = true ↔ c.chunk_overlap < c.chunk_size))
      ∧ (c.chunk_overlap = c.chunk_size - 1 →
          validateConfigResult c ≠ some ConfigFailure.chunkOverlapTooLarge)
      ∧ (c.chunk_overlap = c.chunk_size →
          c.watch_directory_exists = true → (0 < c.bm25_k1 ∧ c.bm25_k1 ≤ 10) →
          (0 ≤ c.bm25_b ∧ c.bm25_b ≤ 1) →
          validateConfigResult c = some ConfigFailure.chunkOverlapTooLarge) := by
  intro c
  refine ⟨?_, ?_, ?_, ?_⟩
  · constructor
    · intro h
      by_cases h1 : c.watch_directory_exists
      · by_cases h2 : 0 < c.bm25_k1 ∧ c.bm25_k1 ≤ 10
        · by_cases h3 : 0 ≤ c.bm25_b ∧ c.bm25_b ≤ 1
          · by_cases h4 : c.chunk_size ≤ c.chunk_overlap
            · exact ⟨h1, h2, h3, h4⟩
            · exfalso
              simp only [validateConfigResult, h1, h2, h3, h4] at h
              by_cases h5 : 0 ≤ c.min_similarity_threshold ∧ c.min_similarity_threshold ≤ 1 <;>
                by_cases h6 : c.rrf_k ≤ 0 <;> simp [h5, h6] at h
          · simp [validateConfigResult, h1, h2, h3] at h
        · simp [validateConfigResult, h1, h2] at h
      · simp [validateConfigResult, h1] at h
    · rintro ⟨h1, h2, h3, h4⟩
      simp [validateConfigResult, h1, h2, h3, h4]
  · intro h1 h2 h3 h5 h6
    have h6' : ¬ c.rrf_k ≤ 0 := not_le.mpr h6
    by_cases h4 : c.chunk_size ≤ c.chunk_overlap
    · simp [validateConfig, validateConfigResult, h1, h2, h3, h4, h5, h6']
    · simp [validateConfig, validateConfigResult, h1, h2, h3, h4, h5, h6']
      omega
  · intro hov
    have h4 : ¬ c.chunk_size ≤ c.chunk_overlap := by omega
    by_cases h1 : c.watch_directory_exists <;>
      by_cases h2 : 0 < c.bm25_k1 ∧ c.bm25_k1 ≤ 10 <;>
      by_cases h3 : 0 ≤ c.bm25_b ∧ c.bm25_b ≤ 1 <;>
      by_cases h5 : 0 ≤ c.min_similarity_threshold ∧ c.min_similarity_threshold ≤ 1 <;>
      by_cases h6 : c.rrf_k ≤ 0 <;>
      simp [validateConfigResult, h1, h2, h3, h4, h5, h6]
  · intro hov h1 h2 h3
    have h4 : c.chunk_size ≤ c.chunk_overlap := by omega
    simp [validateConfigResult, h1, h2, h3, h4]

theorem config_chunk_overlap_check_witness :
    validateConfig { watch_directory_exists := true, bm25_k1 := 3/2, bm25_b := 3/4,
                     chunk_size := 500, chunk_overlap := 499,
                     min_similarity_threshold := 3/10, rrf_k := 60 } = true
    ∧ validateConfigResult { watch_directory_exists := true, bm25_k1 := 3/2, bm25_b := 3/4,
                             chunk_size := 500, chunk_overlap := 500,
                             min_similarity_threshold := 3/10, rrf_k := 60 }
        = some ConfigFailure.chunkOverlapTooLarge :=
  ⟨((config_chunk_overlap_check _).2.1 rfl (by constructor <;> norm_num)
      (by constructor <;> norm_num) (by constructor <;> norm_num) (by norm_num)).mpr
      (by norm_num),
   (config_chunk_overlap_check _).2.2.2 rfl rfl (by constructor <;> norm_num)
      (by constructor <;> norm_num)⟩

/-! ## C6: `save_index` writes in place, with no temp-and-rename -/

/-- C6 counterexample: `save_index` performs a single direct write to the
target path (no rename anywhere in the operation list), and a save
interrupted during that write leaves a torn file where the previously
persisted artifact used to be, so a failed save does not leave the old
artifact unchanged. -/
theorem save_not_atomic_cex :
    (saveIndexOps savedBM25 "index.pkl").all (fun op => !op.isRename) = true
    ∧ (saveIndexOps savedBM25 "index.pkl")
        = [FileOp.write "index.pkl"
            { index := [["tok"]], corpus := [["tok"]], paths := ["/x.txt"],
              document_count := 1 }]
    ∧ fsWithOldIndex "index.pkl" = some (FileContent.full oldSaveData)
    ∧ applyOpsInterrupted fsWithOldIndex (saveIndexOps savedBM25 "index.pkl") 0 "index.pkl"
        = some FileContent.torn
    ∧ some FileContent.torn ≠ some (FileContent.full oldSaveData) := by
  refine ⟨rfl, rfl, rfl, rfl, ?_⟩
  decide

/-- C6 amended: `save_index` persists `{index, token lists, doc-id list in
matching order, document count}` by a single direct write to the target
path — there is no temporary file and no rename — so a completed save
replaces the artifact, while a save interrupted mid-write leaves a torn
file at the final path; with no built index it writes nothing and fails. -/
theorem save_index_direct_write :
    ∀ (s : BM25State) (p : String) (idx : List (List String)),
      s.index = some idx →
      saveIndexOps s p
        = [FileOp.write p { index := idx, corpus := s.corpus, paths := s.paths,
                            document_count := s.document_count }]
      ∧ (∀ fs, applyOps fs (saveIndexOps s p) p
          = some (FileContent.full { index := idx, corpus := s.corpus, paths := s.paths,
                                     document_count := s.document_count }))
      ∧ (∀ fs, applyOpsInterrupted fs (saveIndexOps s p) 0 p = some FileContent.torn)
      ∧ (∀ s' : BM25State, s'.index = none → saveIndexOps s' p = []) := by
  intro s p idx hidx
  refine ⟨?_, ?_, ?_, ?_⟩
  · simp [saveIndexOps, hidx]
  · intro fs
    simp [saveIndexOps, hidx, applyOps, applyOp]
  · intro fs
    simp [saveIndexOps, hidx, applyOpsInterrupted]
  · intro s' h
    simp [saveIndexOps, h]

theorem save_index_direct_write_witness :
    saveIndexOps savedBM25 "index.pkl"
      = [FileOp.write "index.pkl"
          { index := [["tok"]], corpus := [["tok"]], paths := ["/x.txt"],
            document_count := 1 }] :=
  (save_index_direct_write savedBM25 "index.pkl" [["tok"]] rfl).1

/-! ## C2: the BM25 index is rebuilt eagerly by add/remove, never by search -/

/-- Helper: whatever branch `_rebuild_index` takes, the corpus is
untouched. -/
theorem rebuildIndex_fst_corpus (s : BM25State) : (rebuildIndex s).1.corpus = s.corpus := by
  rw [rebuildIndex]
  split_ifs <;> rfl

/-- Helper: `_rebuild_index` on an empty corpus leaves the state alone. -/
theorem rebuildIndex_fst_of_empty (s : BM25State) (h : s.corpus = []) :
    (rebuildIndex s).1 = s := by
  rw [rebuildIndex, if_pos h]

/-- Helper: after `_rebuild_index` on a non-empty corpus, the index is the
freshly built one over the (unchanged) corpus. -/
theorem rebuildIndex_fst_index (s : BM25State) (h : (rebuildIndex s).1.corpus ≠ []) :
    (rebuildIndex s).1.index = some ((rebuildIndex s).1.corpus) := by
  rw [rebuildIndex_fst_corpus] at h
  rw [rebuildIndex, if_neg h]

/-- C2 counterexample: adding a document to a fresh retriever builds the
index inside the `add` call itself (the claim says `add` only marks the
index stale), and a search against a state with documents but no built
index returns nothing instead of constructing a fresh index. -/
theorem bm25_rebuild_timing_cex :
    emptyBM25.index = none
    ∧ (addDocument tokSingleton emptyBM25 "/a.txt" "hello").2 = true
    ∧ (addDocument tokSingleton emptyBM25 "/a.txt" "hello").1.index = some [["hello"]]
    ∧ staleBM25.corpus = [["hello"]]
    ∧ staleBM25.index = none
    ∧ bm25Search tieGetScores tokSingleton staleBM25 "hello" 5 = [] := by
  refine ⟨rfl, ?_, ?_, rfl, rfl, ?_⟩ <;> decide

/-- C2 amended: `add_document` and `remove_document` rebuild the BM25 index
eagerly inside the call: a successful add, and a removal that leaves a
non-empty corpus, leave the index freshly built over the current token
lists (a removal that empties the corpus leaves the old index object in
place); `search` never rebuilds — with no built index it returns no
results — and an explicit `rebuild_index` call is available. -/
theorem bm25_eager_rebuild :
    (∀ (tok : String → List String) (s : BM25State) (p t : String),
      (addDocument tok s p t).2 = true →
      (addDocument tok s p t).1.corpus ≠ [] →
      (addDocument tok s p t).1.index = some (addDocument tok s p t).1.corpus)
    ∧ (∀ (s : BM25State) (d : String),
        (removeDocument s d).2 = true →
        ((removeDocument s d).1.corpus ≠ [] →
          (removeDocument s d).1.index = some (removeDocument s d).1.corpus)
        ∧ ((removeDocument s d).1.corpus = [] → (removeDocument s d).1.index = s.index))
    ∧ (∀ (gs : List (List String) → List String → List ℚ) (tok : String → List String)
        (s : BM25State) (q : String) (k : ℕ),
        s.index = none → bm25Search gs tok s q k = [])
    ∧ (∀ s : BM25State, s.corpus ≠ [] → (rebuildIndex s).1.index = some s.corpus) := by
  refine ⟨?_, ?_, ?_, ?_⟩
  · intro tok s p t hadd hne
    by_cases htok : tok t = []
    · exfalso
      simp only [addDocument, if_pos htok] at hadd
      exact Bool.false_ne_true hadd
    · simp only [addDocument, if_neg htok] at hne ⊢
      by_cases hmem : p ∈ s.paths
      · rw [if_pos hmem] at hne ⊢
        exact rebuildIndex_fst_index _ hne
      · rw [if_neg hmem] at hne ⊢
        exact rebuildIndex_fst_index _ hne
  · intro s d hrem
    by_cases hmem : d ∈ s.paths
    · constructor
      · intro hne
        simp only [removeDocument, if_pos hmem] at hne ⊢
        exact rebuildIndex_fst_index _ hne
      · intro hnil
        simp only [removeDocument, if_pos hmem] at hnil ⊢
        rw [rebuildIndex_fst_corpus] at hnil
        rw [rebuildIndex_fst_of_empty _ hnil]
    · exfalso
      simp only [removeDocument, if_neg hmem] at hrem
      exact Bool.false_ne_true hrem
  · intro gs tok s q k hidx
    by_cases hq : validQuery q <;> simp [bm25Search, hq, hidx]
  · intro s hne
    simp [rebuildIndex, hne]

theorem bm25_eager_rebuild_witness :
    (addDocument tokSingleton emptyBM25 "/a.txt" "hello").1.index
      = some (addDocument tokSingleton emptyBM25 "/a.txt" "hello").1.corpus :=
  bm25_eager_rebuild.1 tokSingleton emptyBM25 "/a.txt" "hello" (by decide) (by decide)

/-! ## C8: removing twice is a no-op the second time -/

theorem rebuildIndex_fst_paths (s : BM25State) : (rebuildIndex s).1.paths = s.paths := by
  rw [rebuildIndex]
  split_ifs <;> rfl

theorem rebuildIndex_fst_cache (s : BM25State) :
    (rebuildIndex s).1.corpus_cache = s.corpus_cache := by
  rw [rebuildIndex]
  split_ifs <;> rfl

/-- `del list[list.index(d)]` is exactly "erase the first occurrence". -/
theorem eraseIdx_pyIndex (l : List String) (d : String) :
    l.eraseIdx (pyIndex l d) = l.erase d := by
  induction l with
  | nil => rfl
  | cons a l ih =>
      by_cases h : a = d
      · simp [pyIndex, List.findIdx_cons, h, List.eraseIdx, List.erase_cons_head]
      · have hbeq : ¬ (a == d) = true := by simpa using h
        simp only [pyIndex, List.findIdx_cons, cond_eq_if, decide_eq_true_eq, if_neg h,
          List.eraseIdx, List.erase_cons]
        rw [if_neg hbeq]
        exact congrArg (a :: ·) ih

/-- Keys of the cache after the conditional delete: the first occurrence
of the key is gone. -/
theorem keys_dictErase {α : Type} (l : List (String × α)) (d : String) :
    (dictErase l d).map Prod.fst = (l.map Prod.fst).erase d := by
  induction l with
  | nil => rfl
  | cons kv l ih =>
      by_cases h : kv.1 = d
      · simp only [dictErase, if_pos h, List.map_cons, List.erase_cons]
        rw [if_pos (by simpa using h)]
      · simp only [dictErase, if_neg h, List.map_cons, List.erase_cons]
        rw [if_neg (by simpa using h)]
        exact congrArg (kv.1 :: ·) ih

/-- The conditional delete does nothing when the key is absent. -/
theorem dictErase_of_not_mem {α : Type} (l : List (String × α)) (d : String)
    (h : d ∉ l.map Prod.fst) : dictErase l d = l := by
  induction l with
  | nil => rfl
  | cons kv l ih =>
      obtain ⟨k, v⟩ := kv
      simp only [List.map_cons, List.mem_cons, not_or] at h
      simp only [dictErase]
      rw [if_neg (fun he : k = d => h.1 he.symm), ih h.2]

/-- C8: for both retrievers, `remove` reports whether a removal occurred,
and a second `remove` of the same doc id immediately after a successful one
leaves the state untouched and returns `False`. -/
theorem remove_twice_noop :
    (∀ (s : BM25State) (d : String),
      (removeDocument s d).2 = decide (d ∈ s.paths))
    ∧ (∀ (s : BM25State) (d : String),
        s.paths.Nodup → (s.corpus_cache.map Prod.fst).Nodup →
        (removeDocument s d).2 = true →
        removeDocument (removeDocument s d).1 d = ((removeDocument s d).1, false))
    ∧ (∀ (s : VectorState) (rows : List VRow) (d : String),
        s.table = some rows →
        (vecRemoveDocument s d).2 = decide (∃ r ∈ rows, r.doc_id = d))
    ∧ (∀ (s : VectorState) (d : String),
        (vecRemoveDocument s d).2 = true →
        vecRemoveDocument (vecRemoveDocument s d).1 d = ((vecRemoveDocument s d).1, false)) := by
  refine ⟨?_, ?_, ?_, ?_⟩
  · intro s d
    by_cases hmem : d ∈ s.paths <;> simp [removeDocument, hmem]
  · intro s d hnodup hcache hrem
    by_cases hmem : d ∈ s.paths
    · set s' := (removeDocument s d).1 with hs'
      have hpaths : s'.paths = s.paths.erase d := by
        rw [hs']
        simp only [removeDocument, if_pos hmem]
        rw [rebuildIndex_fst_paths, eraseIdx_pyIndex]
      have hcache' : s'.corpus_cache = dictErase s.corpus_cache d := by
        rw [hs']
        simp only [removeDocument, if_pos hmem]
        rw [rebuildIndex_fst_cache]
      have hd1 : d ∉ s'.paths := by
        rw [hpaths]
        intro hin
        exact ((List.Nodup.mem_erase_iff hnodup).mp hin).1 rfl
      have hd2 : d ∉ s'.corpus_cache.map Prod.fst := by
        rw [hcache', keys_dictErase]
        intro hin
        exact ((List.Nodup.mem_erase_iff hcache).mp hin).1 rfl
      simp only [removeDocument, if_neg hd1]
      rw [dictErase_of_not_mem _ _ hd2]
    · exfalso
      simp only [removeDocument, if_neg hmem] at hrem
      exact Bool.false_ne_true hrem
  · intro s rows d htab
    simp only [vecRemoveDocument, htab]
    by_cases hex : ∃ r ∈ rows, r.doc_id = d
    · have hlt : (rows.filter (fun r => !(r.doc_id = d : Bool))).length < rows.length := by
        rw [List.length_filter_lt_length_iff_exists]
        obtain ⟨r, hr, hrd⟩ := hex
        exact ⟨r, hr, by simp [hrd]⟩
      simp [hlt, hex]
    · have hall : ∀ r ∈ rows, r.doc_id ≠ d := by
        intro r hr hrd
        exact hex ⟨r, hr, hrd⟩
      have heq : rows.filter (fun r => !(r.doc_id = d : Bool)) = rows := by
        rw [List.filter_eq_self]
        intro r hr
        simp [hall r hr]
      rw [heq]
      simp [hex]
  · intro s d hrem
    rcases htab : s.table with _ | rows
    · exfalso
      simp only [vecRemoveDocument, htab] at hrem
      exact Bool.false_ne_true hrem
    · simp only [vecRemoveDocument, htab] at hrem ⊢
      by_cases hlt : (rows.filter (fun r => !(r.doc_id = d : Bool))).length < rows.length
      · rw [if_pos hlt]
        simp only [vecRemoveDocument]
        have heq : (rows.filter (fun r => !(r.doc_id = d : Bool))).filter
            (fun r => !(r.doc_id = d : Bool))
            = rows.filter (fun r => !(r.doc_id = d : Bool)) := by
          rw [List.filter_eq_self]
          intro r hr
          exact (List.mem_filter.mp hr).2
        rw [heq]
        simp
      · rw [if_neg hlt] at hrem
        exact absurd hrem Bool.false_ne_true

theorem remove_twice_noop_witness :
    removeDocument (removeDocument savedBM25 "/x.txt").1 "/x.txt"
      = ((removeDocument savedBM25 "/x.txt").1, false)
    ∧ vecRemoveDocument
        (vecRemoveDocument { table := some [⟨"/x.txt", 0, "t"⟩], document_count := 1 }
          "/x.txt").1 "/x.txt"
      = ((vecRemoveDocument { table := some [⟨"/x.txt", 0, "t"⟩], document_count := 1 }
          "/x.txt").1, false) :=
  ⟨remove_twice_noop.2.1 savedBM25 "/x.txt" (by decide) (by decide) (by decide),
   remove_twice_noop.2.2.2 _ "/x.txt" (by decide)⟩

/-! ## C1: the RRF fused score -/

theorem scoreOf_assocAdd (l : List (String × ℚ)) (key : String) (v : ℚ) (d : String) :
    scoreOf (assocAdd l key v) d = scoreOf l d + (if d = key then v else 0) := by
  induction l with
  | nil => simp [assocAdd, scoreOf]
  | cons kv rest ih =>
      obtain ⟨k', v'⟩ := kv
      by_cases hk : k' = key
      · subst hk
        by_cases hd : d = k' <;> simp [assocAdd, scoreOf, hd]
      · by_cases hd : d = k'
        · have hdk : ¬ d = key := by rw [hd]; exact hk
          simp [assocAdd, scoreOf, hk, hd, hdk]
        · simp [assocAdd, scoreOf, hk, hd, ih]

theorem scoreOf_addListScoresAux (kq w : ℚ) (rs : List SearchResult) (rank : ℕ)
    (acc : List (String × ℚ)) (d : String) :
    scoreOf (addListScoresAux kq w rs rank acc) d
      = scoreOf acc d + rrfContrib kq w rs rank d := by
  induction rs generalizing rank acc with
  | nil => simp [addListScoresAux, rrfContrib]
  | cons r rs ih =>
      simp only [addListScoresAux, rrfContrib]
      rw [ih, scoreOf_assocAdd]
      ring

theorem rrfContrib_of_not_mem (kq w : ℚ) (rs : List SearchResult) (rank : ℕ) (d : String)
    (h : d ∉ rs.map (·.doc_id)) : rrfContrib kq w rs rank d = 0 := by
  induction rs generalizing rank with
  | nil => rfl
  | cons r rs ih =>
      simp only [List.map_cons, List.mem_cons, not_or] at h
      simp only [rrfContrib, if_neg h.1, ih _ h.2, zero_add]

theorem rrfContrib_nodup (kq w : ℚ) (rs : List SearchResult) (rank : ℕ) (d : String)
    (h : (rs.map (·.doc_id)).Nodup) :
    rrfContrib kq w rs rank d
      = (match rankIn rs d with
         | some r => w / (kq + ((rank : ℚ) + (r : ℚ) - 1))
         | none => 0) := by
  induction rs generalizing rank with
  | nil => rfl
  | cons r rs ih =>
      simp only [List.map_cons, List.nodup_cons] at h
      obtain ⟨hhd, htl⟩ := h
      by_cases heq : r.doc_id = d
      · have hd2 : d ∉ rs.map (·.doc_id) := heq ▸ hhd
        simp only [rrfContrib, if_pos heq.symm, rrfContrib_of_not_mem kq w rs (rank + 1) d hd2,
          add_zero, rankIn, if_pos heq]
        have hc : (rank : ℚ) + ((1 : ℕ) : ℚ) - 1 = (rank : ℚ) := by push_cast; ring
        rw [hc]
      · have hne : ¬ d = r.doc_id := fun hd => heq hd.symm
        simp only [rrfContrib, if_neg hne, zero_add, rankIn, if_neg heq]
        rw [ih _ htl]
        rcases hr : rankIn rs d with _ | rk
        · rfl
        · simp only [Option.map_some']
          have hc : ((rank + 1 : ℕ) : ℚ) + (rk : ℚ) - 1
              = (rank : ℚ) + ((rk + 1 : ℕ) : ℚ) - 1 := by push_cast; ring
          rw [hc]

theorem rrfContrib_one (kq w : ℚ) (rs : List SearchResult) (d : String)
    (h : (rs.map (·.doc_id)).Nodup) :
    rrfContrib kq w rs 1 d
      = (match rankIn rs d with
         | some rank => w / (kq + (rank : ℚ))
         | none => 0) := by
  rw [rrfContrib_nodup kq w rs 1 d h]
  rcases hr : rankIn rs d with _ | rk
  · rfl
  · simp only [hr]
    have hc : ((1 : ℕ) : ℚ) + (rk : ℚ) - 1 = (rk : ℚ) := by push_cast; ring
    rw [hc]

theorem zip_map_self {α β : Type} (l : List α) (f : α → β) :
    l.zip (l.map f) = l.map (fun a => (a, f a)) := by
  induction l with
  | nil => rfl
  | cons a l ih => simp [List.zip_cons_cons, ih]

theorem scoreOf_rrfFold (kq : ℚ) (m : ℕ) (prs : List (RetrievalResult × ℚ))
    (acc : List (String × ℚ)) (d : String) :
    scoreOf
        (prs.foldl (fun acc pr => addListScoresAux kq pr.2 (pr.1.results.take m) 1 acc) acc) d
      = scoreOf acc d
        + (prs.map (fun pr => rrfContrib kq pr.2 (pr.1.results.take m) 1 d)).sum := by
  induction prs generalizing acc with
  | nil => simp
  | cons pr prs ih =>
      rw [List.foldl_cons, ih, scoreOf_addListScoresAux]
      simp [add_assoc]

/-- C1: with normalization on, positive total weight, duplicate-free ranked
lists and lists no longer than `max_results`, the reranker assigns every
document `d` the fused score `S(d) = Σ_i (w_i/W) / (k + rank_i(d))` with
ranks starting at 1 and weights normalized by the total `W`; and on the
spec's example — lists `[a, b, c]` and `[c, a, b]` with equal weights and
`k = 60` — the fused output order is `[a, c, b]`. -/
theorem rrf_fused_score_formula :
    (∀ (p : RRFParams) (rrs : List RetrievalResult),
      p.normalize_weights = true →
      0 < (rrs.map (·.weight)).sum →
      (∀ rr ∈ rrs, rr.results.length ≤ p.max_results) →
      (∀ rr ∈ rrs, (rr.results.map (·.doc_id)).Nodup) →
      ∀ d, scoreOf (calculateRRFScores p rrs) d
        = specRRFScore p.k ((rrs.map (·.weight)).sum) rrs d)
    ∧ (rerank defaultRRFParams rrfExampleInput 10).map (·.doc_id) = ["a", "c", "b"] := by
  constructor
  · intro p rrs hnorm hpos hlen hnodup d
    have hne : ((rrs.map (·.weight)).isEmpty) = false := by
      rcases rrs with _ | ⟨rr, rrs⟩
      · simp at hpos
      · rfl
    have hcalc : calculateRRFScores p rrs
        = (rrs.map (fun rr => (rr, rr.weight / (rrs.map (·.weight)).sum))).foldl
            (fun acc pr => addListScoresAux p.k pr.2 (pr.1.results.take p.max_results) 1 acc)
            [] := by
      simp only [calculateRRFScores, hnorm, hne, Bool.not_false, Bool.and_self, if_true,
        if_pos hpos, List.map_map]
      rw [zip_map_self]
      rfl
    rw [hcalc, scoreOf_rrfFold]
    simp only [scoreOf, List.map_map, zero_add]
    unfold specRRFScore
    refine congrArg List.sum (List.map_congr_left ?_)
    intro rr hmem
    simp only [Function.comp_apply]
    rw [List.take_of_length_le (hlen rr hmem), rrfContrib_one _ _ _ _ (hnodup rr hmem)]
  · simp [rerank, validateRetrievalResults, rrfExampleInput, defaultRRFParams,
      calculateRRFScores, addListScoresAux, assocAdd, createFinalResults,
      finalResultsUnsorted, firstOcc, firstOccAux, srLookup, sortByScoreDesc,
      insertByScoreDesc]
    norm_num [insertByScoreDesc, List.filter_cons, decide_eq_true_eq]

theorem rrf_fused_score_formula_witness :
    scoreOf (calculateRRFScores defaultRRFParams rrfExampleInput) "a"
      = specRRFScore defaultRRFParams.k ((rrfExampleInput.map (·.weight)).sum)
          rrfExampleInput "a" :=
  rrf_fused_score_formula.1 defaultRRFParams rrfExampleInput rfl
    (by norm_num [rrfExampleInput]) (by decide) (by decide) "a"

/-! ## C4: the chunker emits a window exactly when its trimmed length
reaches `min_chunk` -/

theorem pyStrip_eq_nil_iff (l : List Char) :
    pyStrip l = [] ↔ ∀ c ∈ l, c.isWhitespace := by
  unfold pyStrip
  rw [List.reverse_eq_nil_iff, List.dropWhile_eq_nil_iff]
  constructor
  · intro h c hc
    have hsplit := List.takeWhile_append_dropWhile Char.isWhitespace l
    rw [← hsplit] at hc
    rcases List.mem_append.mp hc with hc' | hc'
    · exact List.mem_takeWhile_imp hc'
    · exact h c (List.mem_reverse.mpr hc')
  · intro h c hc
    exact h c ((List.dropWhile_sublist Char.isWhitespace).mem (List.mem_reverse.mp hc))

theorem mem_windowAt {text : List Char} {cs i : ℕ} {c : Char}
    (h : c ∈ windowAt text cs i) : c ∈ text :=
  ((List.take_sublist cs (text.drop i)).trans (List.drop_sublist i text)).mem h

theorem pyStrip_windowAt_of_all_ws {text : List Char} (cs i : ℕ)
    (h : pyStrip text = []) : pyStrip (windowAt text cs i) = [] := by
  rw [pyStrip_eq_nil_iff] at h ⊢
  intro c hc
  exact h c (mem_windowAt hc)

theorem pyRangePositions_pairwise (n step : ℕ) (hstep : 0 < step) :
    (pyRangePositions n step).Pairwise (· < ·) := by
  unfold pyRangePositions
  exact List.Pairwise.map _ (fun a b hab => (Nat.mul_lt_mul_right hstep).mpr hab)
    (List.pairwise_lt_range _)

theorem filterMap_startpos_pairwise (f : ℕ → Option ChunkInfo)
    (hf : ∀ i c, f i = some c → c.start_pos = i) :
    ∀ pos : List ℕ, pos.Pairwise (· < ·) →
      ((pos.filterMap f).map (fun c => c.start_pos)).Pairwise (· < ·) := by
  intro pos hp
  induction pos with
  | nil => simp
  | cons i rest ih =>
      obtain ⟨hi, hp'⟩ := List.pairwise_cons.mp hp
      rw [List.filterMap_cons]
      cases hfi : f i with
      | none => exact ih hp'
      | some c =>
          rw [List.map_cons]
          refine List.Pairwise.cons ?_ (ih hp')
          intro b hb
          obtain ⟨c', hc', hcb⟩ := List.mem_map.mp hb
          obtain ⟨j, hj, hfj⟩ := List.mem_filterMap.mp hc'
          rw [← hcb, hf j c' hfj, hf i c hfi]
          exact hi j hj

/-- C4: the chunker is the pure sliding-window filter of the spec — the
whitespace-only early return agrees with the general rule — and a window
of the grid is emitted exactly when its trimmed length reaches
`min_chunk`; chunks come out in document order (strictly increasing start
positions). -/
theorem chunker_window_iff :
    ∀ (cs ov mc : ℕ) (text : List Char), ov < cs → 1 ≤ mc →
      splitTextIntoChunks cs ov mc text = splitTextIntoChunksSpec cs ov mc text
      ∧ (∀ i ∈ pyRangePositions text.length (cs - ov),
          ((∃ c ∈ splitTextIntoChunks cs ov mc text, c.start_pos = i)
            ↔ mc ≤ (pyStrip (windowAt text cs i)).length))
      ∧ ((splitTextIntoChunks cs ov mc text).map (fun c => c.start_pos)).Pairwise (· < ·) := by
  intro cs ov mc text hov hmc
  have hf : ∀ (i : ℕ) (c : ChunkInfo),
      (if (pyStrip (windowAt text cs i)).length < mc then none
       else some ({ text := pyStrip (windowAt text cs i), start_pos := i,
                    end_pos := i + (windowAt text cs i).length } : ChunkInfo)) = some c →
      c.start_pos = i := by
    intro i c h
    split_ifs at h with hcond
    rw [← Option.some_inj.mp h]
  have heq : splitTextIntoChunks cs ov mc text = splitTextIntoChunksSpec cs ov mc text := by
    by_cases hstrip : pyStrip text = []
    · rw [splitTextIntoChunks, if_pos hstrip]
      symm
      rw [splitTextIntoChunksSpec, List.filterMap_eq_nil_iff]
      intro i _
      have hwin := pyStrip_windowAt_of_all_ws cs i hstrip
      simp only [hwin, List.length_nil]
      rw [if_pos (by omega)]
    · rw [splitTextIntoChunks, if_neg hstrip, splitTextIntoChunksSpec]
  refine ⟨heq, ?_, ?_⟩
  · intro i hi
    rw [heq]
    unfold splitTextIntoChunksSpec
    constructor
    · rintro ⟨c, hc, hci⟩
      obtain ⟨j, hj, hfj⟩ := List.mem_filterMap.mp hc
      have hcsj : c.start_pos = j := hf j c hfj
      by_cases hcond : (pyStrip (windowAt text cs j)).length < mc
      · exfalso
        have hfj2 : (if (pyStrip (windowAt text cs j)).length < mc then (none : Option ChunkInfo)
            else some { text := pyStrip (windowAt text cs j), start_pos := j,
                        end_pos := j + (windowAt text cs j).length }) = some c := hfj
        rw [if_pos hcond] at hfj2
        exact Option.noConfusion hfj2
      · rw [← hci, hcsj]
        exact not_lt.mp hcond
    · intro hlen
      refine ⟨{ text := pyStrip (windowAt text cs i), start_pos := i,
                end_pos := i + (windowAt text cs i).length }, ?_, rfl⟩
      apply List.mem_filterMap.mpr
      exact ⟨i, hi, by rw [if_neg (not_lt.mpr hlen)]⟩
  · rw [heq]
    unfold splitTextIntoChunksSpec
    exact filterMap_startpos_pairwise _ hf _
      (pyRangePositions_pairwise _ _ (by omega))

theorem chunker_window_iff_witness :
    splitTextIntoChunks 3 1 2 "abcde".data = splitTextIntoChunksSpec 3 1 2 "abcde".data :=
  (chunker_window_iff 3 1 2 "abcde".data (by omega) (by omega)).1

/-! ## C10: paths and corpus move in lockstep -/

theorem dictInsert_of_not_mem {α : Type} (l : List (String × α)) (p : String) (v : α)
    (h : p ∉ l.map Prod.fst) : dictInsert l p v = l ++ [(p, v)] := by
  induction l with
  | nil => rfl
  | cons kv l ih =>
      obtain ⟨k, v'⟩ := kv
      simp only [List.map_cons, List.mem_cons, not_or] at h
      simp only [dictInsert]
      rw [if_neg (fun he : k = p => h.1 he.symm), ih h.2, List.cons_append]

theorem pyIndex_cons_self {a x : String} (l : List String) (h : a = x) :
    pyIndex (a :: l) x = 0 := by
  simp [pyIndex, List.findIdx_cons, h]

theorem pyIndex_cons_ne {a x : String} (l : List String) (h : ¬ a = x) :
    pyIndex (a :: l) x = pyIndex l x + 1 := by
  simp [pyIndex, List.findIdx_cons, h]

theorem zip_set_pyIndex :
    ∀ (paths : List String) (corpus : List (List String)) (p : String) (v : List String),
      paths.length = corpus.length → p ∈ paths →
      paths.zip (corpus.set (pyIndex paths p) v) = dictInsert (paths.zip corpus) p v := by
  intro paths
  induction paths with
  | nil => intro corpus p v _ hmem; exact absurd hmem (List.not_mem_nil p)
  | cons a ps ih =>
      intro corpus p v hlen hmem
      rcases corpus with _ | ⟨c, cs⟩
      · simp at hlen
      · by_cases ha : a = p
        · rw [pyIndex_cons_self ps ha]
          simp only [List.set_cons_zero, List.zip_cons_cons, dictInsert]
          rw [if_pos ha]
          rfl
        · rw [pyIndex_cons_ne ps ha]
          have hmem' : p ∈ ps := by
            rcases List.mem_cons.mp hmem with h | h
            · exact absurd h.symm ha
            · exact h
          simp only [List.set_cons_succ, List.zip_cons_cons, dictInsert]
          rw [if_neg ha, ih cs p v (by simpa using hlen) hmem']
          rfl

theorem zip_eraseIdx_pyIndex :
    ∀ (paths : List String) (corpus : List (List String)) (d : String),
      paths.length = corpus.length → d ∈ paths →
      (paths.eraseIdx (pyIndex paths d)).zip (corpus.eraseIdx (pyIndex paths d))
        = dictErase (paths.zip corpus) d := by
  intro paths
  induction paths with
  | nil => intro corpus d _ hmem; exact absurd hmem (List.not_mem_nil d)
  | cons a ps ih =>
      intro corpus d hlen hmem
      rcases corpus with _ | ⟨c, cs⟩
      · simp at hlen
      · by_cases ha : a = d
        · rw [pyIndex_cons_self ps ha]
          simp only [List.eraseIdx, List.zip_cons_cons, dictErase]
          rw [if_pos ha]
          rfl
        · rw [pyIndex_cons_ne ps ha]
          have hmem' : d ∈ ps := by
            rcases List.mem_cons.mp hmem with h | h
            · exact absurd h.symm ha
            · exact h
          simp only [List.eraseIdx, List.zip_cons_cons, dictErase]
          rw [if_neg ha, ih cs d (by simpa using hlen) hmem']
          rfl

theorem zip_map_fst_snd {α β : Type} (l : List (α × β)) :
    (l.map Prod.fst).zip (l.map Prod.snd) = l := by
  induction l with
  | nil => rfl
  | cons kv l ih => simp [List.zip_cons_cons, ih]

theorem buildLexResultsAux_isSome (th : ℚ) :
    ∀ (scores : List ℚ) (i : ℕ) (paths : List String) (corpus : List (List String)),
      i + scores.length ≤ paths.length → i + scores.length ≤ corpus.length →
      (buildLexResultsAux th scores i paths corpus).isSome = true := by
  intro scores
  induction scores with
  | nil =>
      intro i paths corpus _ _
      simp [buildLexResultsAux]
  | cons sc rest ih =>
      intro i paths corpus h1 h2
      simp only [List.length_cons] at h1 h2
      simp only [buildLexResultsAux]
      split_ifs with hsc
      · exact ih (i + 1) paths corpus (by omega) (by omega)
      · have hip : i < paths.length := by omega
        have hic : i < corpus.length := by omega
        rw [List.get?_eq_get hip, List.get?_eq_get hic]
        rw [Option.isSome_map']
        exact ih (i + 1) paths corpus (by omega) (by omega)

/-- C10: the path list and the tokenized corpus are kept in lockstep — as
an association of paths to token lists, `add_document` performs exactly a
replace-or-append for the doc id (never duplicating an existing entry),
`remove_document` deletes exactly the first entry for the doc id,
`_rebuild_corpus_from_cache` rebuilds both lists together from the
surviving cache entries (resetting the counter to their number) — their
lengths stay equal and duplicate-freeness of the paths is preserved, so
the score scan of `search` finds a path and a token list for every scored
index (`buildLexResults` cannot hit an index error). -/
theorem bm25_lockstep_invariant :
    (∀ (tok : String → List String) (s : BM25State) (p t : String),
      s.paths.length = s.corpus.length →
        ((addDocument tok s p t).1.paths.length = (addDocument tok s p t).1.corpus.length)
        ∧ (tok t ≠ [] →
            (addDocument tok s p t).1.paths.zip (addDocument tok s p t).1.corpus
              = dictInsert (s.paths.zip s.corpus) p (tok t))
        ∧ (tok t = [] → (addDocument tok s p t).1 = s)
        ∧ (s.paths.Nodup → (addDocument tok s p t).1.paths.Nodup))
    ∧ (∀ (s : BM25State) (d : String),
        s.paths.length = s.corpus.length →
          ((removeDocument s d).1.paths.length = (removeDocument s d).1.corpus.length)
          ∧ ((removeDocument s d).1.paths.zip (removeDocument s d).1.corpus
              = dictErase (s.paths.zip s.corpus) d)
          ∧ (s.paths.Nodup → (removeDocument s d).1.paths.Nodup))
    ∧ (∀ (fe : String → Bool) (s : BM25State),
        (rebuildCorpusFromCache fe s).paths.length
            = (rebuildCorpusFromCache fe s).corpus.length
        ∧ (rebuildCorpusFromCache fe s).paths.zip (rebuildCorpusFromCache fe s).corpus
            = s.corpus_cache.filter (fun pr => fe pr.1)
        ∧ (rebuildCorpusFromCache fe s).document_count
            = (rebuildCorpusFromCache fe s).paths.length
        ∧ ((s.corpus_cache.map Prod.fst).Nodup → (rebuildCorpusFromCache fe s).paths.Nodup))
    ∧ (∀ (th : ℚ) (scores : List ℚ) (paths : List String) (corpus : List (List String)),
        scores.length = corpus.length → corpus.length = paths.length →
        (buildLexResults th scores paths corpus).isSome = true) := by
  refine ⟨?_, ?_, ?_, ?_⟩
  · intro tok s p t hlen
    by_cases htok : tok t = []
    · simp only [addDocument, if_pos htok]
      refine ⟨hlen, fun hne => absurd htok hne, fun _ => ?_, fun h => h⟩
      trivial
    · by_cases hmem : p ∈ s.paths
      · simp only [addDocument, if_neg htok, if_pos hmem]
        rw [rebuildIndex_fst_paths, rebuildIndex_fst_corpus]
        refine ⟨by simp [hlen], fun _ => ?_, fun he => absurd he htok, fun h => h⟩
        exact zip_set_pyIndex s.paths s.corpus p (tok t) hlen hmem
      · simp only [addDocument, if_neg htok, if_neg hmem]
        rw [rebuildIndex_fst_paths, rebuildIndex_fst_corpus]
        refine ⟨by simp [hlen], fun _ => ?_, fun he => absurd he htok, fun h => ?_⟩
        · rw [List.zip_append hlen,
            dictInsert_of_not_mem _ _ _ (by rwa [List.map_fst_zip _ _ (le_of_eq hlen)])]
          rfl
        · rw [List.nodup_append]
          exact ⟨h, List.nodup_singleton p, by simpa [List.disjoint_singleton] using hmem⟩
  · intro s d hlen
    by_cases hmem : d ∈ s.paths
    · simp only [removeDocument, if_pos hmem]
      rw [rebuildIndex_fst_paths, rebuildIndex_fst_corpus]
      refine ⟨?_, ?_, fun h => ?_⟩
      · rw [List.length_eraseIdx, List.length_eraseIdx, hlen]
      · exact zip_eraseIdx_pyIndex s.paths s.corpus d hlen hmem
      · exact h.sublist (List.eraseIdx_sublist _ _)
    · simp only [removeDocument, if_neg hmem]
      refine ⟨hlen, ?_, fun h => h⟩
      rw [dictErase_of_not_mem _ _ (by rwa [List.map_fst_zip _ _ (le_of_eq hlen)])]
  · intro fe s
    refine ⟨by simp [rebuildCorpusFromCache], ?_, by simp [rebuildCorpusFromCache], fun h => ?_⟩
    · simp only [rebuildCorpusFromCache]
      exact zip_map_fst_snd _
    · simp only [rebuildCorpusFromCache]
      exact h.sublist ((List.filter_sublist _).map Prod.fst)
  · intro th scores paths corpus h1 h2
    exact buildLexResultsAux_isSome th scores 0 paths corpus (by omega) (by omega)

theorem bm25_lockstep_invariant_witness :
    (addDocument tokSingleton emptyBM25 "/a.txt" "hello").1.paths.length
      = (addDocument tokSingleton emptyBM25 "/a.txt" "hello").1.corpus.length :=
  (bm25_lockstep_invariant.1 tokSingleton emptyBM25 "/a.txt" "hello" rfl).1

/-! ## C5: equal scores are not tie-broken by doc id -/

/-- C5 counterexample: with two retrievers each ranking a different single
document first (equal weights, `k = 60`), both fused scores are `1/122`,
yet the reranker returns `["b", "a"]` — first-appearance order, not
ascending doc id (which would give `["a", "b"]`); likewise the lexical
search, given equal BM25 scores for paths `["b", "a"]`, returns them in
corpus order `["b", "a"]`. -/
theorem tiebreak_not_docid_cex :
    (rerank defaultRRFParams rrfTieInput 10).map (fun r => r.doc_id) = ["b", "a"]
    ∧ (rerank defaultRRFParams rrfTieInput 10).map (fun r => r.score) = [1/122, 1/122]
    ∧ (["b", "a"] : List String) ≠ ["a", "b"] ∧ ('a' : Char) < 'b'
    ∧ (bm25Search tieGetScores tokSingleton tieLexState "q" 5).map (fun r => r.doc_id)
        = ["b", "a"]
    ∧ (bm25Search tieGetScores tokSingleton tieLexState "q" 5).map (fun r => r.score)
        = [1, 1] := by
  refine ⟨?_, ?_, by decide, by decide, ?_, ?_⟩
  · simp [rerank, validateRetrievalResults, rrfTieInput, defaultRRFParams,
      calculateRRFScores, addListScoresAux, assocAdd, createFinalResults,
      finalResultsUnsorted, firstOcc, firstOccAux, srLookup, sortByScoreDesc,
      insertByScoreDesc]
    norm_num [insertByScoreDesc, List.filter_cons, decide_eq_true_eq]
  · simp [rerank, validateRetrievalResults, rrfTieInput, defaultRRFParams,
      calculateRRFScores, addListScoresAux, assocAdd, createFinalResults,
      finalResultsUnsorted, firstOcc, firstOccAux, srLookup, sortByScoreDesc,
      insertByScoreDesc]
    norm_num [insertByScoreDesc, List.filter_cons, decide_eq_true_eq]
  · simp [bm25Search, validQuery, pyStrip, Char.isWhitespace, tieLexState, tieGetScores,
      tokSingleton, buildLexResults, buildLexResultsAux, BM25_MIN_SCORE_THRESHOLD,
      sortByScoreDesc, insertByScoreDesc]
    norm_num [insertByScoreDesc, List.filter_cons, decide_eq_true_eq]
  · simp [bm25Search, validQuery, pyStrip, Char.isWhitespace, tieLexState, tieGetScores,
      tokSingleton, buildLexResults, buildLexResultsAux, BM25_MIN_SCORE_THRESHOLD,
      sortByScoreDesc, insertByScoreDesc]
    norm_num [insertByScoreDesc, List.filter_cons, decide_eq_true_eq]

/-- C5 amended: both searches sort by descending score only, with Python's
stable sort: results of equal score keep their pre-sort order — corpus
order for the lexical search, first-appearance order for the fused
results — rather than being re-ordered by ascending doc id. -/
theorem search_sort_stable_descending :
    (∀ (pre : List SearchResult) (q : ℚ),
        (sortByScoreDesc pre).Pairwise (fun a b => b.score ≤ a.score)
      ∧ (sortByScoreDesc pre).filter (fun r => r.score = q)
          = pre.filter (fun r => r.score = q))
    ∧ (∀ (gs : List (List String) → List String → List ℚ) (tok : String → List String)
        (s : BM25State) (query : String) (k : ℕ) (built : List (List String))
        (pre : List SearchResult),
        validQuery query = true →
        s.index = some built →
        s.corpus ≠ [] →
        tok query ≠ [] →
        buildLexResults BM25_MIN_SCORE_THRESHOLD (gs built (tok query)) s.paths s.corpus
          = some pre →
        bm25Search gs tok s query k = (sortByScoreDesc pre).take k)
    ∧ (∀ (p : RRFParams) (rrs : List RetrievalResult) (k : ℕ),
        validateRetrievalResults rrs = true →
        rerank p rrs k
          = ((sortByScoreDesc (finalResultsUnsorted (calculateRRFScores p rrs) rrs)).filter
              (fun r => p.score_threshold ≤ r.score)).take k) := by
  refine ⟨?_, ?_, ?_⟩
  · intro pre q
    exact ⟨sortByScoreDesc_pairwise pre, sortByScoreDesc_filter pre q⟩
  · intro gs tok s query k built pre hvq hidx hcorp htok hpre
    simp only [bm25Search, hvq, Bool.not_true, Bool.false_eq_true, if_false, hidx,
      if_neg hcorp, if_neg htok, hpre]
  · intro p rrs k hval
    simp only [rerank, hval, Bool.not_true, Bool.false_eq_true, if_false, createFinalResults]

theorem search_sort_stable_descending_witness :
    bm25Search tieGetScores tokSingleton tieLexState "q" 5
      = (sortByScoreDesc
          [{ doc_id := "b", text := pyTake (String.intercalate " " ["tok"]) 200, score := 1,
             search_type := "bm25" },
           { doc_id := "a", text := pyTake (String.intercalate " " ["tok"]) 200, score := 1,
             search_type := "bm25" }]).take 5 :=
  search_sort_stable_descending.2.1 tieGetScores tokSingleton tieLexState "q" 5
    [["tok"], ["tok"]] _ (by decide) rfl (by decide) (by decide)
    (by norm_num [buildLexResults, buildLexResultsAux, tieLexState, BM25_MIN_SCORE_THRESHOLD])

/-! ## C3: the vector search pipeline -/

theorem vLookup_assocImprove (l : List (String × ℚ × String)) (key : String) (s : ℚ)
    (t : String) (d : String) :
    vLookup (assocImprove l key s t) d
      = if d = key then
          (match vLookup l d with
           | none => some (s, t)
           | some (s', t') => if s' < s then some (s, t) else some (s', t'))
        else vLookup l d := by
  induction l with
  | nil =>
      by_cases hd : d = key <;> simp [assocImprove, vLookup, hd]
  | cons e rest ih =>
      obtain ⟨k', s', t'⟩ := e
      by_cases hk : k' = key
      · subst hk
        by_cases hd : d = k'
        · by_cases hs : s' < s <;> simp [assocImprove, vLookup, hd, hs]
        · by_cases hs : s' < s <;> simp [assocImprove, vLookup, hd, hs]
      · by_cases hd : d = k'
        · have hdk : ¬ d = key := fun h => hk (hd.symm.trans h)
          simp [assocImprove, vLookup, hk, hd, hdk]
        · simp [assocImprove, vLookup, hk, hd, ih]

theorem processVRows_eq_fold (metric : String) (th : ℚ) :
    ∀ (rows : List VSearchRow) (acc : List (String × ℚ × String)),
      processVRows metric th rows acc
        = (survivingRows metric th rows).foldl
            (fun acc r =>
              assocImprove acc r.file_path (convertDistanceToSimilarity metric r.distance)
                r.text) acc := by
  intro rows
  induction rows with
  | nil => intro acc; rfl
  | cons r rs ih =>
      intro acc
      by_cases hth : convertDistanceToSimilarity metric r.distance < th
      · simp only [processVRows, if_pos hth, survivingRows, List.filter_cons,
          hth, decide_True, Bool.not_true]
        exact ih acc
      · simp only [processVRows, if_neg hth, survivingRows, List.filter_cons]
        rw [show (decide (convertDistanceToSimilarity metric r.distance < th)) = false
          from decide_eq_false hth]
        simp only [Bool.not_false, if_true]
        rw [List.foldl_cons]
        exact ih _

theorem vLookup_fold_runBest (metric : String) (d : String) :
    ∀ (svs : List VSearchRow) (acc : List (String × ℚ × String)),
      vLookup
          (svs.foldl
            (fun acc r =>
              assocImprove acc r.file_path (convertDistanceToSimilarity metric r.distance)
                r.text) acc) d
        = runBest metric d svs (vLookup acc d) := by
  intro svs
  induction svs with
  | nil => intro acc; rfl
  | cons r rs ih =>
      intro acc
      rw [List.foldl_cons, ih, vLookup_assocImprove]
      by_cases hf : r.file_path = d
      · simp only [runBest, if_pos hf, if_pos hf.symm]
      · simp only [runBest, if_neg hf, if_neg (fun h : d = r.file_path => hf h.symm)]

theorem runBest_some_src (metric key : String) :
    ∀ (svs : List VSearchRow) (cur : Option (ℚ × String)) (s : ℚ) (t : String),
      runBest metric key svs cur = some (s, t) →
      cur = some (s, t)
      ∨ ∃ r ∈ svs, r.file_path = key
          ∧ convertDistanceToSimilarity metric r.distance = s ∧ r.text = t := by
  intro svs
  induction svs with
  | nil =>
      intro cur s t h
      exact Or.inl h
  | cons r rs ih =>
      intro cur s t h
      by_cases hf : r.file_path = key
      · rcases cur with _ | ⟨s', t'⟩
        · simp only [runBest, if_pos hf] at h
          rcases ih _ s t h with h2 | ⟨r', hr', hprop⟩
          · obtain ⟨hs, ht⟩ := Prod.mk.injEq .. ▸ Option.some_inj.mp h2
            exact Or.inr ⟨r, List.mem_cons_self r rs, hf, hs, ht⟩
          · exact Or.inr ⟨r', List.mem_cons_of_mem r hr', hprop⟩
        · simp only [runBest, if_pos hf] at h
          by_cases hs : s' < convertDistanceToSimilarity metric r.distance
          · rw [if_pos hs] at h
            rcases ih _ s t h with h2 | ⟨r', hr', hprop⟩
            · obtain ⟨hs2, ht2⟩ := Prod.mk.injEq .. ▸ Option.some_inj.mp h2
              exact Or.inr ⟨r, List.mem_cons_self r rs, hf, hs2, ht2⟩
            · exact Or.inr ⟨r', List.mem_cons_of_mem r hr', hprop⟩
          · rw [if_neg hs] at h
            rcases ih _ s t h with h2 | ⟨r', hr', hprop⟩
            · exact Or.inl h2
            · exact Or.inr ⟨r', List.mem_cons_of_mem r hr', hprop⟩
      · simp only [runBest, if_neg hf] at h
        rcases ih _ s t h with h2 | ⟨r', hr', hprop⟩
        · exact Or.inl h2
        · exact Or.inr ⟨r', List.mem_cons_of_mem r hr', hprop⟩

theorem runBest_some_max (metric key : String) :
    ∀ (svs : List VSearchRow) (cur : Option (ℚ × String)) (s : ℚ) (t : String),
      runBest metric key svs cur = some (s, t) →
      (∀ r ∈ svs, r.file_path = key → convertDistanceToSimilarity metric r.distance ≤ s)
      ∧ (∀ (s0 : ℚ) (t0 : String), cur = some (s0, t0) → s0 ≤ s) := by
  intro svs
  induction svs with
  | nil =>
      intro cur s t h
      refine ⟨by intro r hr; exact absurd hr (List.not_mem_nil r), ?_⟩
      intro s0 t0 h0
      rw [h0] at h
      obtain ⟨hs, _⟩ := Prod.mk.injEq .. ▸ Option.some_inj.mp h
      exact le_of_eq hs
  | cons r rs ih =>
      intro cur s t h
      by_cases hf : r.file_path = key
      · rcases cur with _ | ⟨s', t'⟩
        · simp only [runBest, if_pos hf] at h
          have hih := ih _ s t h
          have hhead : convertDistanceToSimilarity metric r.distance ≤ s :=
            hih.2 _ r.text rfl
          refine ⟨?_, by intro s0 t0 h0; exact absurd h0 (by simp)⟩
          intro r' hr' hfp
          rcases List.mem_cons.mp hr' with h2 | h2
          · subst h2; exact hhead
          · exact hih.1 r' h2 hfp
        · simp only [runBest, if_pos hf] at h
          by_cases hs : s' < convertDistanceToSimilarity metric r.distance
          · rw [if_pos hs] at h
            have hih := ih _ s t h
            have hhead : convertDistanceToSimilarity metric r.distance ≤ s :=
              hih.2 _ r.text rfl
            refine ⟨?_, ?_⟩
            · intro r' hr' hfp
              rcases List.mem_cons.mp hr' with h2 | h2
              · subst h2; exact hhead
              · exact hih.1 r' h2 hfp
            · intro s0 t0 h0
              obtain ⟨hs0, _⟩ := Prod.mk.injEq .. ▸ Option.some_inj.mp h0
              exact le_trans (le_of_eq hs0.symm) (le_trans (le_of_lt hs) hhead)
          · rw [if_neg hs] at h
            have hih := ih _ s t h
            have hs' : s' ≤ s := hih.2 s' t' rfl
            refine ⟨?_, ?_⟩
            · intro r' hr' hfp
              rcases List.mem_cons.mp hr' with h2 | h2
              · subst h2
                exact le_trans (not_lt.mp hs) hs'
              · exact hih.1 r' h2 hfp
            · intro s0 t0 h0
              obtain ⟨hs0, _⟩ := Prod.mk.injEq .. ▸ Option.some_inj.mp h0
              exact le_trans (le_of_eq hs0.symm) hs'
      · simp only [runBest, if_neg hf] at h
        have hih := ih _ s t h
        refine ⟨?_, hih.2⟩
        intro r' hr' hfp
        rcases List.mem_cons.mp hr' with h2 | h2
        · subst h2; exact absurd hfp hf
        · exact hih.1 r' h2 hfp

theorem keys_assocImprove (l : List (String × ℚ × String)) (key : String) (s : ℚ)
    (t : String) :
    (assocImprove l key s t).map Prod.fst
      = if key ∈ l.map Prod.fst then l.map Prod.fst else l.map Prod.fst ++ [key] := by
  induction l with
  | nil => simp [assocImprove]
  | cons e rest ih =>
      obtain ⟨k', s', t'⟩ := e
      by_cases hk : k' = key
      · subst hk
        by_cases hs : s' < s <;> simp [assocImprove, hs]
      · have hk2 : ¬ key = k' := fun h => hk h.symm
        by_cases hmem : key ∈ rest.map Prod.fst
        · simp [assocImprove, hk, hk2, ih, hmem]
        · simp [assocImprove, hk, hk2, ih, hmem]

theorem keys_fold_mem (metric : String) :
    ∀ (svs : List VSearchRow) (acc : List (String × ℚ × String)) (d : String),
      (d ∈ (svs.foldl
          (fun acc r =>
            assocImprove acc r.file_path (convertDistanceToSimilarity metric r.distance)
              r.text) acc).map Prod.fst)
        ↔ d ∈ acc.map Prod.fst ∨ ∃ r ∈ svs, r.file_path = d := by
  intro svs
  induction svs with
  | nil =>
      intro acc d
      simp
  | cons r rs ih =>
      intro acc d
      rw [List.foldl_cons, ih, keys_assocImprove]
      by_cases hmem : r.file_path ∈ acc.map Prod.fst
      · rw [if_pos hmem]
        constructor
        · rintro (h | h)
          · exact Or.inl h
          · obtain ⟨r', hr', he⟩ := h
            exact Or.inr ⟨r', List.mem_cons_of_mem r hr', he⟩
        · rintro (h | h)
          · exact Or.inl h
          · obtain ⟨r', hr', he⟩ := h
            rcases List.mem_cons.mp hr' with h2 | h2
            · subst h2
              exact Or.inl (he ▸ hmem)
            · exact Or.inr ⟨r', h2, he⟩
      · rw [if_neg hmem]
        constructor
        · rintro (h | h)
          · rcases List.mem_append.mp h with h3 | h3
            · exact Or.inl h3
            · have h4 : d = r.file_path := by simpa using h3
              exact Or.inr ⟨r, List.mem_cons_self r rs, h4.symm⟩
          · obtain ⟨r', hr', he⟩ := h
            exact Or.inr ⟨r', List.mem_cons_of_mem r hr', he⟩
        · rintro (h | h)
          · exact Or.inl (List.mem_append.mpr (Or.inl h))
          · obtain ⟨r', hr', he⟩ := h
            rcases List.mem_cons.mp hr' with h2 | h2
            · subst h2
              exact Or.inl (List.mem_append.mpr (Or.inr (by simp [he])))
            · exact Or.inr ⟨r', h2, he⟩

theorem keys_fold_nodup (metric : String) :
    ∀ (svs : List VSearchRow) (acc : List (String × ℚ × String)),
      (acc.map Prod.fst).Nodup →
      ((svs.foldl
          (fun acc r =>
            assocImprove acc r.file_path (convertDistanceToSimilarity metric r.distance)
              r.text) acc).map Prod.fst).Nodup := by
  intro svs
  induction svs with
  | nil => intro acc h; exact h
  | cons r rs ih =>
      intro acc h
      rw [List.foldl_cons]
      apply ih
      rw [keys_assocImprove]
      by_cases hmem : r.file_path ∈ acc.map Prod.fst
      · rw [if_pos hmem]; exact h
      · rw [if_neg hmem, List.nodup_append]
        exact ⟨h, List.nodup_singleton _, by simpa [List.disjoint_singleton] using hmem⟩

theorem vLookup_of_mem_nodup :
    ∀ (l : List (String × ℚ × String)) (k : String) (v : ℚ × String),
      (l.map Prod.fst).Nodup → (k, v) ∈ l → vLookup l k = some v := by
  intro l
  induction l with
  | nil =>
      intro k v _ hm
      exact absurd hm (List.not_mem_nil _)
  | cons e rest ih =>
      intro k v hnd hm
      obtain ⟨k', v'⟩ := e
      rw [List.map_cons, List.nodup_cons] at hnd
      rcases List.mem_cons.mp hm with h | h
      · have hk : k = k' := congrArg Prod.fst h
        have hv : v = v' := congrArg Prod.snd h
        subst hk
        simp [vLookup, hv]
      · have hk : ¬ k = k' := by
          intro hkk
          apply hnd.1
          rw [← hkk]
          exact List.mem_map.mpr ⟨(k, v), h, rfl⟩
        simp only [vLookup, if_neg hk]
        exact ih k v hnd.2 h

theorem surviving_th_le (metric : String) (th : ℚ) (rows : List VSearchRow) :
    ∀ r ∈ survivingRows metric th rows,
      th ≤ convertDistanceToSimilarity metric r.distance := by
  intro r hr
  have h := (List.mem_filter.mp hr).2
  simp only [Bool.not_eq_true', decide_eq_false_iff_not, not_lt] at h
  exact h

/-- Everything true of one `processed_files` entry: its similarity clears
the threshold, it comes from a surviving row of its doc id whose text it
carries, and it dominates the similarity of every surviving row of that
doc id. -/
theorem processed_entry_spec (metric : String) (th : ℚ) (rows : List VSearchRow)
    (key : String) (s : ℚ) (t : String)
    (he : (key, s, t) ∈ processVRows metric th rows []) :
    th ≤ s
    ∧ (∃ r ∈ survivingRows metric th rows, r.file_path = key
        ∧ convertDistanceToSimilarity metric r.distance = s ∧ r.text = t)
    ∧ (∀ r ∈ survivingRows metric th rows, r.file_path = key →
        convertDistanceToSimilarity metric r.distance ≤ s) := by
  have hkeys : ((processVRows metric th rows []).map Prod.fst).Nodup := by
    rw [processVRows_eq_fold]
    exact keys_fold_nodup metric _ [] (by simp)
  have hlk : vLookup (processVRows metric th rows []) key = some (s, t) :=
    vLookup_of_mem_nodup _ key (s, t) hkeys he
  rw [processVRows_eq_fold, vLookup_fold_runBest] at hlk
  have hsrc := runBest_some_src metric key (survivingRows metric th rows) none s t hlk
  have hmax := runBest_some_max metric key (survivingRows metric th rows) none s t hlk
  rcases hsrc with h | ⟨r, hr, hfp, hcv, htx⟩
  · exact absurd h (by simp)
  · exact ⟨hcv ▸ surviving_th_le metric th rows r hr, ⟨r, hr, hfp, hcv, htx⟩, hmax.1⟩

/-- C3: the vector search pipeline — metric-specific distance-to-similarity
conversion, threshold filtering, per-doc maximum with the winning chunk's
(200-character) text as snippet, descending order, and top-`k` selection:
every returned document dominates every surviving similarity of every doc
id left out. -/
theorem vector_search_pipeline :
    (∀ d : ℚ, convertDistanceToSimilarity "cosine" d = max 0 (1 - d)
        ∧ convertDistanceToSimilarity "l2" d = 1 / (1 + d)
        ∧ convertDistanceToSimilarity "dot" d = (d + 1) / 2)
    ∧ (∀ (metric : String) (th : ℚ) (rows : List VSearchRow) (k : ℕ)
        (res : SearchResult), res ∈ vectorSearch metric th rows k →
        th ≤ res.score
        ∧ (∃ r ∈ survivingRows metric th rows, r.file_path = res.doc_id
            ∧ convertDistanceToSimilarity metric r.distance = res.score
            ∧ res.text = pyTake r.text 200)
        ∧ (∀ r ∈ survivingRows metric th rows, r.file_path = res.doc_id →
            convertDistanceToSimilarity metric r.distance ≤ res.score))
    ∧ (∀ (metric : String) (th : ℚ) (rows : List VSearchRow) (k : ℕ),
        (vectorSearch metric th rows k).Pairwise (fun a b => b.score ≤ a.score))
    ∧ (∀ (metric : String) (th : ℚ) (rows : List VSearchRow) (k : ℕ),
        (vectorSearch metric th rows k).length
          = min k ((survivingRows metric th rows).map (fun r => r.file_path)).toFinset.card)
    ∧ (∀ (metric : String) (th : ℚ) (rows : List VSearchRow) (k : ℕ)
        (res : SearchResult) (d : String),
        res ∈ vectorSearch metric th rows k →
        d ∈ (survivingRows metric th rows).map (fun r => r.file_path) →
        d ∉ (vectorSearch metric th rows k).map (fun r => r.doc_id) →
        ∀ r ∈ survivingRows metric th rows, r.file_path = d →
          convertDistanceToSimilarity metric r.distance ≤ res.score) := by
  refine ⟨?_, ?_, ?_, ?_, ?_⟩
  · intro d
    refine ⟨?_, ?_, ?_⟩
    · rw [convertDistanceToSimilarity, if_pos rfl]
    · rw [convertDistanceToSimilarity, if_neg (by decide), if_pos rfl]
    · rw [convertDistanceToSimilarity, if_neg (by decide), if_neg (by decide), if_pos rfl]
  · intro metric th rows k res hres
    by_cases hrows : rows.isEmpty
    · rw [vectorSearch, if_pos hrows] at hres
      exact absurd hres (List.not_mem_nil res)
    · rw [vectorSearch, if_neg hrows] at hres
      have h1 := List.mem_of_mem_take hres
      have h2 := (sortByScoreDesc_perm _).mem_iff.mp h1
      obtain ⟨e, he, hmk⟩ := List.mem_map.mp h2
      obtain ⟨key, s, t⟩ := e
      have hspec := processed_entry_spec metric th rows key s t he
      have hdoc : res.doc_id = key := by rw [← hmk]; rfl
      have hsc : res.score = s := by rw [← hmk]; rfl
      have htx : res.text = pyTake t 200 := by rw [← hmk]; rfl
      refine ⟨hsc ▸ hspec.1, ?_, ?_⟩
      · obtain ⟨r, hr, hfp, hcv, hrt⟩ := hspec.2.1
        exact ⟨r, hr, hdoc ▸ hfp, hsc ▸ hcv, by rw [htx, hrt]⟩
      · intro r hr hfp
        exact hsc ▸ hspec.2.2 r hr (hdoc ▸ hfp)
  · intro metric th rows k
    by_cases hrows : rows.isEmpty
    · rw [vectorSearch, if_pos hrows]
      exact List.Pairwise.nil
    · rw [vectorSearch, if_neg hrows]
      exact List.Pairwise.sublist (List.take_sublist _ _) (sortByScoreDesc_pairwise _)
  · intro metric th rows k
    by_cases hrows : rows.isEmpty
    · have hnil : rows = [] := List.isEmpty_iff.mp hrows
      subst hnil
      simp [vectorSearch, survivingRows]
    · rw [vectorSearch, if_neg hrows, List.length_take]
      have hkeys : ((processVRows metric th rows []).map Prod.fst).Nodup := by
        rw [processVRows_eq_fold]
        exact keys_fold_nodup metric _ [] (by simp)
      have hlen1 : (sortByScoreDesc ((processVRows metric th rows []).map
          mkVectorResult)).length = (processVRows metric th rows []).length := by
        rw [(sortByScoreDesc_perm _).length_eq, List.length_map]
      rw [hlen1]
      congr 1
      rw [show (processVRows metric th rows []).length
            = ((processVRows metric th rows []).map Prod.fst).length from
          (List.length_map _ _).symm,
        ← List.toFinset_card_of_nodup hkeys]
      congr 1
      apply Finset.ext
      intro a
      rw [List.mem_toFinset, List.mem_toFinset, processVRows_eq_fold, keys_fold_mem]
      simp [List.mem_map]
  · intro metric th rows k res d hres hd hnot r hr hfp
    by_cases hrows : rows.isEmpty
    · rw [vectorSearch, if_pos hrows] at hres
      exact absurd hres (List.not_mem_nil res)
    · have hdk : d ∈ (processVRows metric th rows []).map Prod.fst := by
        rw [processVRows_eq_fold, keys_fold_mem]
        obtain ⟨r0, hr0, he0⟩ := List.mem_map.mp hd
        exact Or.inr ⟨r0, hr0, he0⟩
      obtain ⟨e, he, hefst⟩ := List.mem_map.mp hdk
      obtain ⟨key, sd, td⟩ := e
      have hkey : key = d := hefst
      rw [hkey] at he
      have hspec := processed_entry_spec metric th rows d sd td he
      have hmem1 : mkVectorResult (d, sd, td)
          ∈ (processVRows metric th rows []).map mkVectorResult :=
        List.mem_map_of_mem mkVectorResult he
      have hmem2 := (sortByScoreDesc_perm _).mem_iff.mpr hmem1
      have hsplit := List.take_append_drop k
        (sortByScoreDesc ((processVRows metric th rows []).map mkVectorResult))
      rw [← hsplit] at hmem2
      rcases List.mem_append.mp hmem2 with hin | hin
      · exfalso
        apply hnot
        rw [vectorSearch, if_neg hrows]
        exact List.mem_map.mpr ⟨mkVectorResult (d, sd, td), hin, rfl⟩
      · rw [vectorSearch, if_neg hrows] at hres
        have hscore := pairwise_take_drop
          (sortByScoreDesc_pairwise ((processVRows metric th rows []).map mkVectorResult))
          k hres hin
        exact le_trans (hspec.2.2 r hr hfp) hscore

theorem vector_search_pipeline_witness :
    (3 : ℚ)/10
      ≤ ({ doc_id := "x", text := pyTake "hello" 200, score := 9/10,
           search_type := "vector" } : SearchResult).score :=
  (vector_search_pipeline.2.1 "cosine" (3/10)
    [⟨"x", "hello", 1/10⟩, ⟨"y", "yy", 2⟩, ⟨"x", "h2", 1/2⟩] 5 _
    (by norm_num [vectorSearch, processVRows, convertDistanceToSimilarity, assocImprove,
      sortByScoreDesc, insertByScoreDesc, mkVectorResult])).1

end HybridSearch
